import Mathlib

/-!
# Verification of the concurrent-exchange-sim order book, risk gate, accounts and engine loop

Shallow embedding of the core of the repository:

* `src/include/ces/common/types.hpp` — value types, `Side`, `OrderType`, `OrderResult`
* `src/include/ces/lob/order.hpp` — `Order`, `Trade`, `OrderResponse`, `OrderEvent`
* `src/include/ces/lob/price_level.hpp` — `PriceLevel` (FIFO queue per price)
* `src/src/lob/order_book.cpp` — `OrderBook` operations and the matching loop
* `src/src/engine/accounts.cpp` — `Accounts::apply_trade` and account lookup
* `src/include/ces/engine/risk.hpp` — `RiskChecker::check`
* `src/include/ces/engine/matching_engine.hpp` — `MatchingEngine::process_event`

Modelling conventions:

* `Price` and `Qty` are `Int` (both are `std::int64_t` in the source); the claims under
  study never exercise 64-bit wrap-around, and `price * qty` overflow is undefined
  behaviour in the source, so the idealized integer semantics is used.
* `OrderId` is `Nat` (`std::uint64_t`), `TraderId` is `Nat` (`std::uint32_t`).
* A `PriceLevel`'s intrusive doubly-linked FIFO of pool indices is represented as the
  `List Order` of the linked orders, head of the list = head of the queue (matched
  first); `push_back` appends at the tail.  `total_qty` and `order_count` of the
  source are derived quantities (`order_count = orders.length`) and are not stored.
* The `ObjectPool` and the `order_map_` are not materialized: every allocated pool
  slot is linked at exactly one level and `order_map_` mirrors exactly the linked
  orders (each rest inserts into both, each unlink erases from both), so pool size
  equals the number of linked orders and `order_map_.contains` is membership among
  the linked orders.  `allocate` fails exactly when the pool is full, i.e. when the
  number of linked orders has reached the pool capacity.
* Locks and timestamps are dropped: all book operations run under the single book
  mutex, so the sequential semantics is exact.
-/

namespace CES

/-- `Side` from `types.hpp`. -/
inductive Side : Type
  | Buy
  | Sell
deriving DecidableEq, Repr

/-- `OrderType` from `types.hpp`. -/
inductive OrderType : Type
  | NewLimit
  | NewMarket
  | Cancel
  | Modify
deriving DecidableEq, Repr

/-- `OrderResult` from `types.hpp`. -/
inductive OrderResult : Type
  | Accepted
  | PartiallyFilled
  | FullyFilled
  | Cancelled
  | Modified
  | Rejected
  | NotFound
deriving DecidableEq, Repr

/-- `Order` from `order.hpp` (pool-resident fields; the intrusive `next_idx`/`prev_idx`
links are represented by the position of the order in its level's list, and the
timestamp is dropped). -/
structure Order : Type where
  order_id : Nat
  trader_id : Nat
  side : Side
  price : Int
  qty_remaining : Int
  qty_original : Int
deriving DecidableEq, Repr

/-- `Trade` from `order.hpp` (timestamp dropped). -/
structure Trade : Type where
  maker_order_id : Nat
  taker_order_id : Nat
  maker_trader_id : Nat
  taker_trader_id : Nat
  price : Int
  qty : Int
  taker_side : Side
deriving DecidableEq, Repr

/-- `OrderResponse` from `order.hpp`. -/
structure OrderResponse : Type where
  result : OrderResult
  order_id : Nat
  qty_filled : Int
  qty_remaining : Int
  trade_count : Nat
deriving DecidableEq, Repr

/-- `PriceLevel` from `price_level.hpp`: the FIFO queue of linked orders at one price.
`orders` is ordered head-first (the head is matched first); `total_qty` and
`order_count` are derived. -/
structure PriceLevel : Type where
  price : Int
  orders : List Order
deriving DecidableEq, Repr

/-- The `OrderBook` state from `order_book.hpp`: `bids_` sorted descending by price,
`asks_` ascending, plus the pool capacity (`max_orders`) and the two statistics
counters.  The pool contents and `order_map_` are derived from the levels (see the
file header). -/
structure OrderBook : Type where
  bids : List PriceLevel
  asks : List PriceLevel
  capacity : Nat
  total_trades : Nat
  total_volume : Int
deriving DecidableEq, Repr

/-- All orders currently linked in the book (= contents of the object pool
= domain of `order_map_`). -/
def OrderBook.all_orders (b : OrderBook) : List Order :=
  ((b.bids ++ b.asks).map PriceLevel.orders).flatten

/-- `order_map_.contains(order_id)` — membership among the live orders. -/
def OrderBook.has_order (b : OrderBook) (oid : Nat) : Bool :=
  b.all_orders.any (fun o => o.order_id == oid)

/-- `order_pool_.size()` — number of live orders. -/
def OrderBook.live_count (b : OrderBook) : Nat :=
  b.all_orders.length

/-- `order_map_.find(order_id)` followed by the pool dereference: the live order
with the given id, if any. -/
def OrderBook.find_order (b : OrderBook) (oid : Nat) : Option Order :=
  b.all_orders.find? (fun o => o.order_id == oid)

/-- Inner matching loop of `OrderBook::match_order` (order_book.cpp:342-373): match
the incoming remainder against one level's FIFO queue.  Returns the emitted trades
in order, the level's surviving queue, and the taker's remainder.

The source loops `while (remaining > 0 && !level.empty())`; a maker that survives a
fill (`maker.qty_remaining - fill > 0`) forces `fill = min(remaining, maker.qty) =
remaining`, so the loop condition fails on the next test and the source exits with
that maker still at the head — hence no recursive call in that branch. -/
def match_level (taker_oid taker_tid : Nat) (side : Side) :
    List Order → Int → List Trade × List Order × Int
  | [], r => ([], [], r)
  | maker :: rest, r =>
    if 0 < r then
      let fill := min r maker.qty_remaining
      let t : Trade :=
        { maker_order_id := maker.order_id
          taker_order_id := taker_oid
          maker_trader_id := maker.trader_id
          taker_trader_id := taker_tid
          price := maker.price
          qty := fill
          taker_side := side }
      if maker.qty_remaining - fill ≤ 0 then
        let res := match_level taker_oid taker_tid side rest (r - fill)
        (t :: res.1, res.2.1, res.2.2)
      else
        ([t], { maker with qty_remaining := maker.qty_remaining - fill } :: rest, r - fill)
    else ([], maker :: rest, r)

/-- Outer level loop of `OrderBook::match_order` (order_book.cpp:328-381): walk the
opposite-side levels best-first, stopping at the limit-price break, erasing levels
that empty, and advancing past levels that survive (a surviving level implies the
remainder reached 0, re-checked by the loop guard). -/
def match_levels (taker_oid taker_tid : Nat) (side : Side) (price : Int)
    (is_market : Bool) : List PriceLevel → Int → List Trade × List PriceLevel × Int
  | [], r => ([], [], r)
  | lvl :: rest, r =>
    if 0 < r then
      if is_market = false ∧
          ((side = Side.Buy ∧ price < lvl.price) ∨ (side = Side.Sell ∧ lvl.price < price)) then
        ([], lvl :: rest, r)
      else
        let lr := match_level taker_oid taker_tid side lvl.orders r
        let res := match_levels taker_oid taker_tid side price is_market rest lr.2.2
        if lr.2.1.isEmpty then
          (lr.1 ++ res.1, res.2.1, res.2.2)
        else
          (lr.1 ++ res.1, { lvl with orders := lr.2.1 } :: res.2.1, res.2.2)
    else ([], lvl :: rest, r)

/-- Sum of the trade quantities (the per-fill `total_volume_ += fill_qty.get()`
accumulated over the loop). -/
def trades_volume (ts : List Trade) : Int :=
  (ts.map Trade.qty).sum

/-- `OrderBook::match_order` (order_book.cpp:313-384): match against the opposite
side, returning the updated book (including the `total_trades_`/`total_volume_`
counters advanced per fill), the emitted trades in order, and the remainder. -/
def OrderBook.match_order (b : OrderBook) (taker_oid taker_tid : Nat) (side : Side)
    (price qty : Int) (is_market : Bool) : OrderBook × List Trade × Int :=
  let levels := if side = Side.Buy then b.asks else b.bids
  let res := match_levels taker_oid taker_tid side price is_market levels qty
  let b' := if side = Side.Buy then { b with asks := res.2.1 } else { b with bids := res.2.1 }
  ({ b' with
      total_trades := b'.total_trades + res.1.length
      total_volume := b'.total_volume + trades_volume res.1 },
   res.1, res.2.2)

/-- The comparator of `find_or_create_level`/`find_level` (order_book.cpp:392-396):
`comp(level, p)` = `is_bid ? level.price > p : level.price < p`, i.e. "the level
strictly precedes price `p` in this side's sort order". -/
def level_before (is_bid : Bool) (level_price p : Int) : Bool :=
  if is_bid then p < level_price else level_price < p

/-- `find_or_create_level` followed by `PriceLevel::push_back` (order_book.cpp:60-63,
386-405): linear rendering of the `lower_bound` insertion point — skip the levels
strictly preceding `o.price`, splice the order onto the tail of an existing level of
equal price, or insert a fresh level holding only the order. -/
def rest_order (is_bid : Bool) (o : Order) : List PriceLevel → List PriceLevel
  | [] => [{ price := o.price, orders := [o] }]
  | lvl :: rest =>
    if level_before is_bid lvl.price o.price then
      lvl :: rest_order is_bid o rest
    else if lvl.price = o.price then
      { lvl with orders := lvl.orders ++ [o] } :: rest
    else
      { price := o.price, orders := [o] } :: lvl :: rest

/-- `find_level` + `PriceLevel::remove` + `remove_level_if_empty`
(order_book.cpp:407-431, 433-446): locate the level at `p` (the `lower_bound` hit
must have equal price, otherwise nothing is removed), unlink the order with id
`oid`, and erase the level if it emptied. -/
def remove_order_at (is_bid : Bool) (p : Int) (oid : Nat) :
    List PriceLevel → List PriceLevel
  | [] => []
  | lvl :: rest =>
    if level_before is_bid lvl.price p then
      lvl :: remove_order_at is_bid p oid rest
    else if lvl.price = p then
      let os := lvl.orders.eraseP (fun o => o.order_id == oid)
      if os.isEmpty then rest else { lvl with orders := os } :: rest
    else
      lvl :: rest

/-- `OrderBook::remove_order_internal` (order_book.cpp:433-446) applied to the
side the order is linked on. -/
def OrderBook.remove_order (b : OrderBook) (o : Order) : OrderBook :=
  if o.side = Side.Buy then
    { b with bids := remove_order_at true o.price o.order_id b.bids }
  else
    { b with asks := remove_order_at false o.price o.order_id b.asks }

/-- The in-place `order.qty_remaining = new_qty` of the modify-reduce path
(order_book.cpp:170): the source mutates the pooled order through its pool index;
here the order is rewritten wherever it is linked (ids are unique in reachable
books, so exactly one order is affected). -/
def set_qty_in_levels (oid : Nat) (new_qty : Int) (levels : List PriceLevel) :
    List PriceLevel :=
  levels.map fun lvl =>
    { lvl with
        orders := lvl.orders.map fun o =>
          if o.order_id = oid then { o with qty_remaining := new_qty } else o }

/-- Pool mutation `order.qty_remaining = new_qty` lifted to the book. -/
def OrderBook.set_qty (b : OrderBook) (oid : Nat) (new_qty : Int) : OrderBook :=
  { b with
      bids := set_qty_in_levels oid new_qty b.bids
      asks := set_qty_in_levels oid new_qty b.asks }

/-- `OrderBook::add_limit_internal` (order_book.cpp:17-67): duplicate-id check,
match, then rest the positive remainder if the pool still has a free slot. -/
def OrderBook.add_limit_internal (b : OrderBook) (oid tid : Nat) (side : Side)
    (price qty : Int) : OrderBook × OrderResponse × List Trade :=
  if b.has_order oid then
    (b, { result := OrderResult.Rejected, order_id := oid, qty_filled := 0,
          qty_remaining := 0, trade_count := 0 }, [])
  else
    let m := b.match_order oid tid side price qty false
    if m.2.2 ≤ 0 then
      (m.1, { result := OrderResult.FullyFilled, order_id := oid,
              qty_filled := qty - m.2.2, qty_remaining := m.2.2,
              trade_count := m.2.1.length }, m.2.1)
    else if m.1.capacity ≤ m.1.live_count then
      (m.1, { result := OrderResult.Rejected, order_id := oid,
              qty_filled := qty - m.2.2, qty_remaining := m.2.2,
              trade_count := m.2.1.length }, m.2.1)
    else
      let o : Order :=
        { order_id := oid, trader_id := tid, side := side, price := price,
          qty_remaining := m.2.2, qty_original := m.2.2 }
      let b2 :=
        if side = Side.Buy then { m.1 with bids := rest_order true o m.1.bids }
        else { m.1 with asks := rest_order false o m.1.asks }
      (b2, { result := if 0 < m.2.1.length then OrderResult.PartiallyFilled
                       else OrderResult.Accepted,
             order_id := oid, qty_filled := qty - m.2.2, qty_remaining := m.2.2,
             trade_count := m.2.1.length }, m.2.1)

/-- `OrderBook::add_limit` (order_book.cpp:69-78) — the lock is a no-op here. -/
def OrderBook.add_limit (b : OrderBook) (oid tid : Nat) (side : Side)
    (price qty : Int) : OrderBook × OrderResponse × List Trade :=
  b.add_limit_internal oid tid side price qty

/-- `OrderBook::add_market` (order_book.cpp:80-103): match immediately with
price 0 and `is_market = true`; never rests, no duplicate check. -/
def OrderBook.add_market (b : OrderBook) (oid tid : Nat) (side : Side)
    (qty : Int) : OrderBook × OrderResponse × List Trade :=
  let m := b.match_order oid tid side 0 qty true
  (m.1, { result := if m.2.2 ≤ 0 then OrderResult.FullyFilled
                    else OrderResult.PartiallyFilled,
          order_id := oid, qty_filled := qty - m.2.2, qty_remaining := m.2.2,
          trade_count := m.2.1.length }, m.2.1)

/-- `OrderBook::cancel` (order_book.cpp:105-128). -/
def OrderBook.cancel (b : OrderBook) (oid : Nat) : OrderBook × OrderResponse :=
  match b.find_order oid with
  | none =>
      (b, { result := OrderResult.NotFound, order_id := oid, qty_filled := 0,
            qty_remaining := 0, trade_count := 0 })
  | some o =>
      (b.remove_order o,
       { result := OrderResult.Cancelled, order_id := oid, qty_filled := 0,
         qty_remaining := o.qty_remaining, trade_count := 0 })

/-- `OrderBook::modify` (order_book.cpp:130-188): price change or quantity
increase is cancel + re-add (losing priority); a strict quantity reduction is
applied in place. -/
def OrderBook.modify (b : OrderBook) (oid : Nat) (new_qty new_price : Int) :
    OrderBook × OrderResponse × List Trade :=
  match b.find_order oid with
  | none =>
      (b, { result := OrderResult.NotFound, order_id := oid, qty_filled := 0,
            qty_remaining := 0, trade_count := 0 }, [])
  | some o =>
      if new_price ≠ 0 ∧ new_price ≠ o.price then
        (b.remove_order o).add_limit_internal oid o.trader_id o.side new_price new_qty
      else if new_qty < o.qty_remaining then
        (b.set_qty oid new_qty,
         { result := OrderResult.Modified, order_id := oid, qty_filled := 0,
           qty_remaining := new_qty, trade_count := 0 }, [])
      else
        (b.remove_order o).add_limit_internal oid o.trader_id o.side o.price new_qty

/-- The book right after construction (`OrderBook::OrderBook`): both sides empty,
zero counters, pool capacity `max_orders`. -/
def empty_book (max_orders : Nat) : OrderBook :=
  { bids := [], asks := [], capacity := max_orders, total_trades := 0, total_volume := 0 }

/-- One public mutating book operation (the four rows of the spec's operation
table). -/
inductive BookOp : Type
  | addLimit (oid tid : Nat) (side : Side) (price qty : Int)
  | addMarket (oid tid : Nat) (side : Side) (qty : Int)
  | cancel (oid : Nat)
  | modify (oid : Nat) (new_qty new_price : Int)
deriving DecidableEq, Repr

/-- Apply one operation, keeping only the book state. -/
def apply_op (b : OrderBook) : BookOp → OrderBook
  | BookOp.addLimit oid tid side price qty => (b.add_limit oid tid side price qty).1
  | BookOp.addMarket oid tid side qty => (b.add_market oid tid side qty).1
  | BookOp.cancel oid => (b.cancel oid).1
  | BookOp.modify oid nq np => (b.modify oid nq np).1

/-- The book reached from construction by a sequence of public operations. -/
def run_ops (max_orders : Nat) (ops : List BookOp) : OrderBook :=
  ops.foldl apply_op (empty_book max_orders)

/-!
## Accounts (`accounts.hpp` / `accounts.cpp`)

The account table is a vector of accounts searched linearly by trader id
(`Accounts::get`); it is modelled as an association list searched first-match.
All four balance/position updates of `apply_trade` are `fetch_add`/`fetch_sub`
on atomics, i.e. plain additive updates, so applying them one after the other
to the list is exact — including when maker and taker are the same account.
-/

/-- `Account` from `accounts.hpp` (trader id kept as the association key). -/
structure Account : Type where
  balance : Int
  position : Int
  trade_count : Nat
  volume : Int
deriving DecidableEq, Repr

/-- `Accounts::get` — linear scan, first match. -/
def acc_get (accs : List (Nat × Account)) (tid : Nat) : Option Account :=
  (accs.find? (fun a => a.1 == tid)).map Prod.snd

/-- Update the (first) account with the given trader id in place. -/
def acc_update (tid : Nat) (f : Account → Account) :
    List (Nat × Account) → List (Nat × Account)
  | [] => []
  | (t, a) :: rest =>
    if t = tid then (t, f a) :: rest else (t, a) :: acc_update tid f rest

/-- `Accounts::apply_trade` (accounts.cpp:75-115): no-op when either account is
missing; otherwise the four sign-determined balance/position updates followed by
the trade-count/volume bumps on both accounts. -/
def apply_trade (accs : List (Nat × Account)) (maker_id taker_id : Nat)
    (taker_side : Side) (price qty : Int) : List (Nat × Account) :=
  match acc_get accs maker_id, acc_get accs taker_id with
  | some _, some _ =>
    let notional := price * qty
    let s :=
      if taker_side = Side.Buy then
        let s1 := acc_update taker_id (fun a => { a with balance := a.balance - notional }) accs
        let s2 := acc_update taker_id (fun a => { a with position := a.position + qty }) s1
        let s3 := acc_update maker_id (fun a => { a with balance := a.balance + notional }) s2
        acc_update maker_id (fun a => { a with position := a.position - qty }) s3
      else
        let s1 := acc_update taker_id (fun a => { a with balance := a.balance + notional }) accs
        let s2 := acc_update taker_id (fun a => { a with position := a.position - qty }) s1
        let s3 := acc_update maker_id (fun a => { a with balance := a.balance - notional }) s2
        acc_update maker_id (fun a => { a with position := a.position + qty }) s3
    let s :=
      acc_update maker_id
        (fun a => { a with trade_count := a.trade_count + 1, volume := a.volume + qty }) s
    acc_update taker_id
      (fun a => { a with trade_count := a.trade_count + 1, volume := a.volume + qty }) s
  | _, _ => accs

/-- `Accounts::has_sufficient_balance` (accounts.cpp:127-134). -/
def has_sufficient_balance (accs : List (Nat × Account)) (tid : Nat)
    (required : Int) : Bool :=
  match acc_get accs tid with
  | none => false
  | some a => required ≤ a.balance

/-- `Accounts::get_or_create` (accounts.cpp:31-55): return the existing account,
or append a fresh one with the initial balance unless the table is at capacity. -/
def get_or_create (accs : List (Nat × Account)) (tid : Nat)
    (initial_balance : Int) (max_traders : Nat) : List (Nat × Account) :=
  if (acc_get accs tid).isSome then accs
  else if max_traders ≤ accs.length then accs
  else accs ++ [(tid, { balance := initial_balance, position := 0,
                        trade_count := 0, volume := 0 })]

/-!
## Risk gate (`risk.hpp`)
-/

/-- `RiskResult` from `risk.hpp`. -/
inductive RiskResult : Type
  | Passed
  | InvalidPrice
  | InvalidQty
  | ExceedsMaxOrderValue
  | ExceedsMaxPosition
  | InsufficientBalance
  | UnknownTrader
deriving DecidableEq, Repr

/-- `RiskConfig` from `risk.hpp` with the source's default limits. -/
structure RiskConfig : Type where
  max_order_value : Int := 1000000000
  max_position : Int := 1000000
  max_order_qty : Int := 100000
  max_price : Int := 1000000
  min_price : Int := 1
  check_balance : Bool := true
deriving DecidableEq, Repr

/-- `OrderEvent` from `order.hpp` (`enqueue_time` dropped). -/
structure OrderEvent : Type where
  type : OrderType
  order_id : Nat
  trader_id : Nat
  side : Side
  price : Int
  qty : Int
deriving DecidableEq, Repr

/-- `RiskChecker::check` (risk.hpp:91-125), with the accounts table attached, as
in the engine (`accounts_` is never null there, so the
`config_.check_balance && accounts_ != nullptr` guard reduces to
`config_.check_balance`). -/
def risk_check (cfg : RiskConfig) (accs : List (Nat × Account))
    (ev : OrderEvent) : RiskResult :=
  if ev.type = OrderType.Cancel then RiskResult.Passed
  else if (ev.type = OrderType.NewLimit ∨ ev.type = OrderType.Modify) ∧
      (ev.price < cfg.min_price ∨ cfg.max_price < ev.price) then
    RiskResult.InvalidPrice
  else if ev.qty ≤ 0 ∨ cfg.max_order_qty < ev.qty then
    RiskResult.InvalidQty
  else if cfg.max_order_value < ev.price * ev.qty then
    RiskResult.ExceedsMaxOrderValue
  else if cfg.check_balance = true ∧ ev.side = Side.Buy ∧
      has_sufficient_balance accs ev.trader_id (ev.price * ev.qty) = false then
    RiskResult.InsufficientBalance
  else RiskResult.Passed

/-- First failing check of an ordered check list, `Passed` if none fails. -/
def first_failing : List (Bool × RiskResult) → RiskResult
  | [] => RiskResult.Passed
  | (failed, r) :: rest => if failed then r else first_failing rest

/-- The risk gate as the spec words it (spec §4.5): "For Cancel, always Passed.
For others, in order: price ∈ [min_price, max_price] (skipped for market),
qty > 0 and qty ≤ max_order_qty, price × qty ≤ max_order_value, and — if
balance-check enabled and event.side = Buy — required notional ≤
account.balance", returning the variant of the first failing check. -/
def risk_check_spec (cfg : RiskConfig) (accs : List (Nat × Account))
    (ev : OrderEvent) : RiskResult :=
  if ev.type = OrderType.Cancel then RiskResult.Passed
  else
    first_failing
      [ (decide (ev.type ≠ OrderType.NewMarket ∧
          ¬(cfg.min_price ≤ ev.price ∧ ev.price ≤ cfg.max_price)), RiskResult.InvalidPrice),
        (decide (¬(0 < ev.qty ∧ ev.qty ≤ cfg.max_order_qty)), RiskResult.InvalidQty),
        (decide (¬(ev.price * ev.qty ≤ cfg.max_order_value)), RiskResult.ExceedsMaxOrderValue),
        (cfg.check_balance && decide (ev.side = Side.Buy) &&
          !has_sufficient_balance accs ev.trader_id (ev.price * ev.qty),
          RiskResult.InsufficientBalance) ]

/-!
## Engine loop (`matching_engine.hpp`)
-/

/-- The `EngineConfig` fields that reach `process_event`, with the source's
defaults. -/
structure EngineConfig : Type where
  initial_balance : Int := 1000000000
  max_traders : Nat := 1000
  risk : RiskConfig := {}
deriving Repr

/-- The engine state touched by `process_event`: the book, the account table and
the counters of `EngineStats` that `process_event`/`on_trade` advance. -/
structure EngineState : Type where
  book : OrderBook
  accounts : List (Nat × Account)
  events_processed : Nat
  rejected_count : Nat
  filled_qty : Int
  trade_count : Nat
  volume : Int
deriving Repr

/-- `OrderResponse::success()` (order.hpp:178-181). -/
def response_success (r : OrderResult) : Bool :=
  !(r == OrderResult.Rejected) && !(r == OrderResult.NotFound)

/-- The `switch (event.type)` dispatch of `process_event`
(matching_engine.hpp:170-192), returning the updated book, the response and the
trades the dispatch emitted through the trade callback. -/
def dispatch (b : OrderBook) (ev : OrderEvent) : OrderBook × OrderResponse × List Trade :=
  match ev.type with
  | OrderType.NewLimit => b.add_limit ev.order_id ev.trader_id ev.side ev.price ev.qty
  | OrderType.NewMarket => b.add_market ev.order_id ev.trader_id ev.side ev.qty
  | OrderType.Cancel =>
      let c := b.cancel ev.order_id
      (c.1, c.2, [])
  | OrderType.Modify => b.modify ev.order_id ev.qty ev.price

/-- The account-creation step at the top of `process_event`
(matching_engine.hpp:151-153): ensure the trader's account exists unless the
event is a Cancel. -/
def ensure_account (cfg : EngineConfig) (accs : List (Nat × Account))
    (ev : OrderEvent) : List (Nat × Account) :=
  if ev.type ≠ OrderType.Cancel then
    get_or_create accs ev.trader_id cfg.initial_balance cfg.max_traders
  else accs

/-- `MatchingEngine::process_event` (matching_engine.hpp:147-204) with the
synchronous trade callback `on_trade` (matching_engine.hpp:246-265) inlined:
ensure the account, run risk (a failure increments `rejected_count` and returns
without touching `events_processed_`), otherwise dispatch to the book — each
emitted trade is applied to the accounts and counted — then increment
`events_processed_` and, on success with a positive fill, `filled_qty`. -/
def process_event (cfg : EngineConfig) (s : EngineState) (ev : OrderEvent) :
    EngineState :=
  let accs := ensure_account cfg s.accounts ev
  let r := risk_check cfg.risk accs ev
  if r ≠ RiskResult.Passed then
    { s with accounts := accs, rejected_count := s.rejected_count + 1 }
  else
    let d := dispatch s.book ev
    let accs2 := d.2.2.foldl
      (fun a t => apply_trade a t.maker_trader_id t.taker_trader_id t.taker_side t.price t.qty)
      accs
    { book := d.1
      accounts := accs2
      events_processed := s.events_processed + 1
      rejected_count := s.rejected_count
      filled_qty := s.filled_qty +
        (if response_success d.2.1.result && decide (0 < d.2.1.qty_filled) then
          d.2.1.qty_filled else 0)
      trade_count := s.trade_count + d.2.2.length
      volume := s.volume + trades_volume d.2.2 }

/-- The engine state right after `MatchingEngine`'s constructor. -/
def init_state (max_orders : Nat) : EngineState :=
  { book := empty_book max_orders, accounts := [], events_processed := 0,
    rejected_count := 0, filled_qty := 0, trade_count := 0, volume := 0 }

/-!
## Invariants

Definitions of the book well-formedness properties the spec states in §3 and §8,
and the lemmas showing each operation preserves them.
-/

/-- All orders linked across a list of levels, in level order. -/
def levels_orders (ls : List PriceLevel) : List Order :=
  (ls.map PriceLevel.orders).flatten

/-- The ids of all orders linked across a list of levels. -/
def levels_ids (ls : List PriceLevel) : List Nat :=
  (levels_orders ls).map Order.order_id

/-- "`a` strictly precedes `b`" in a side's sort order: greater price first on
the bid side, lower price first on the ask side (the strict order induced by the
`level_before` comparator). -/
def side_rel (is_bid : Bool) (a b : Int) : Prop :=
  if is_bid then b < a else a < b

/-- A side's level array is sorted strictly by its sort order. -/
def sorted_side (is_bid : Bool) (ls : List PriceLevel) : Prop :=
  (ls.map PriceLevel.price).Pairwise (side_rel is_bid)

/-- No empty level is stored. -/
def levels_nonempty (ls : List PriceLevel) : Prop :=
  ∀ lvl ∈ ls, lvl.orders ≠ []

/-- Spec §3 book invariant: bids strictly decreasing, asks strictly increasing,
no empty levels on either side. -/
def book_sorted (b : OrderBook) : Prop :=
  sorted_side true b.bids ∧ sorted_side false b.asks ∧
    levels_nonempty b.bids ∧ levels_nonempty b.asks

/-- Order ids are unique across the whole book (the order-id index is a map). -/
def ids_nodup (b : OrderBook) : Prop :=
  (b.all_orders.map Order.order_id).Nodup

/-- Spec §3 order invariant for one linked order: `qty_remaining ∈ (0, qty_original]`
(a fully-filled order is unlinked at once, so a linked order's remainder is
positive). -/
def order_qty_ok (o : Order) : Prop :=
  0 < o.qty_remaining ∧ o.qty_remaining ≤ o.qty_original

/-- Spec §3 order invariant over the book. -/
def qty_ok (b : OrderBook) : Prop :=
  ∀ o ∈ b.all_orders, order_qty_ok o

theorem level_before_iff {is_bid : Bool} {a b : Int} :
    level_before is_bid a b = true ↔ side_rel is_bid a b := by
  cases is_bid <;> simp [level_before, side_rel]

theorem side_rel_trans {is_bid : Bool} {a b c : Int}
    (h₁ : side_rel is_bid a b) (h₂ : side_rel is_bid b c) : side_rel is_bid a c := by
  cases is_bid <;> simp only [side_rel, if_true, if_false, Bool.false_eq_true] at * <;> omega

theorem side_rel_of_not {is_bid : Bool} {a b : Int}
    (h₁ : ¬side_rel is_bid a b) (h₂ : a ≠ b) : side_rel is_bid b a := by
  cases is_bid <;> simp only [side_rel, if_true, if_false, Bool.false_eq_true] at * <;> omega

theorem levels_orders_cons (lvl : PriceLevel) (ls : List PriceLevel) :
    levels_orders (lvl :: ls) = lvl.orders ++ levels_orders ls := by
  simp [levels_orders]

theorem levels_orders_append (l₁ l₂ : List PriceLevel) :
    levels_orders (l₁ ++ l₂) = levels_orders l₁ ++ levels_orders l₂ := by
  simp [levels_orders]

theorem all_orders_eq (b : OrderBook) :
    b.all_orders = levels_orders b.bids ++ levels_orders b.asks := by
  simp [OrderBook.all_orders, levels_orders]

/-!
### Lemmas about `match_level`
-/

/-- Matching within a level only removes orders or reduces the head's quantity:
the surviving queue's ids form a sublist of the original ids. -/
theorem match_level_ids_sublist (toid ttid : Nat) (side : Side)
    (os : List Order) (r : Int) :
    ((match_level toid ttid side os r).2.1.map Order.order_id).Sublist
      (os.map Order.order_id) := by
  induction os generalizing r with
  | nil => simp [match_level]
  | cons maker rest ih =>
    by_cases hr : 0 < r
    · by_cases hm : maker.qty_remaining - min r maker.qty_remaining ≤ 0
      · simp only [match_level, if_pos hr, if_pos hm]
        exact (ih _).cons _
      · simp only [match_level, if_pos hr, if_neg hm]
        simp
    · simp [match_level, if_neg hr]

/-- Every order surviving the inner match loop descends from an input order with
the same id, price, side and original quantity. -/
theorem match_level_orders_src (toid ttid : Nat) (side : Side)
    (os : List Order) (r : Int) :
    ∀ o' ∈ (match_level toid ttid side os r).2.1, ∃ o ∈ os,
      o'.order_id = o.order_id ∧ o'.price = o.price ∧ o'.side = o.side ∧
        o'.qty_original = o.qty_original := by
  induction os generalizing r with
  | nil => simp [match_level]
  | cons maker rest ih =>
    by_cases hr : 0 < r
    · by_cases hm : maker.qty_remaining - min r maker.qty_remaining ≤ 0
      · simp only [match_level, if_pos hr, if_pos hm]
        intro o' ho'
        obtain ⟨o, ho, h⟩ := ih _ o' ho'
        exact ⟨o, List.mem_cons_of_mem _ ho, h⟩
      · simp only [match_level, if_pos hr, if_neg hm]
        intro o' ho'
        rcases List.mem_cons.mp ho' with h | h
        · exact ⟨maker, List.mem_cons_self _ _, by simp [h]⟩
        · exact ⟨o', List.mem_cons_of_mem _ h, by simp⟩
    · simp only [match_level, if_neg hr]
      intro o' ho'
      exact ⟨o', ho', by simp⟩

/-- The inner match loop preserves the per-order quantity invariant. -/
theorem match_level_qty_ok (toid ttid : Nat) (side : Side)
    (os : List Order) (r : Int) (h : ∀ o ∈ os, order_qty_ok o) :
    ∀ o' ∈ (match_level toid ttid side os r).2.1, order_qty_ok o' := by
  induction os generalizing r with
  | nil => simp [match_level]
  | cons maker rest ih =>
    by_cases hr : 0 < r
    · by_cases hm : maker.qty_remaining - min r maker.qty_remaining ≤ 0
      · simp only [match_level, if_pos hr, if_pos hm]
        exact ih _ (fun o ho => h o (List.mem_cons_of_mem _ ho))
      · simp only [match_level, if_pos hr, if_neg hm]
        intro o' ho'
        rcases List.mem_cons.mp ho' with h' | h'
        · subst h'
          have hq := h maker (List.mem_cons_self _ _)
          simp only [order_qty_ok] at hq ⊢
          constructor
          · omega
          · have : 0 ≤ min r maker.qty_remaining := le_min (by omega) (by omega)
            omega
        · exact h o' (List.mem_cons_of_mem _ h')
    · simp only [match_level, if_neg hr]
      intro o' ho'
      exact h o' ho'

/-- Every trade emitted by the inner match loop is built from a maker order of
the input queue: it carries that maker's id, trader and resting price, and the
incoming side as `taker_side`. -/
theorem match_level_trades_src (toid ttid : Nat) (side : Side)
    (os : List Order) (r : Int) :
    ∀ t ∈ (match_level toid ttid side os r).1, ∃ o ∈ os,
      t.maker_order_id = o.order_id ∧ t.maker_trader_id = o.trader_id ∧
        t.price = o.price ∧ t.taker_side = side ∧ t.taker_order_id = toid ∧
        t.taker_trader_id = ttid := by
  induction os generalizing r with
  | nil => simp [match_level]
  | cons maker rest ih =>
    by_cases hr : 0 < r
    · by_cases hm : maker.qty_remaining - min r maker.qty_remaining ≤ 0
      · simp only [match_level, if_pos hr, if_pos hm]
        intro t ht
        rcases List.mem_cons.mp ht with h' | h'
        · exact ⟨maker, List.mem_cons_self _ _, by simp [h']⟩
        · obtain ⟨o, ho, h⟩ := ih _ t h'
          exact ⟨o, List.mem_cons_of_mem _ ho, h⟩
      · simp only [match_level, if_pos hr, if_neg hm]
        intro t ht
        rcases List.mem_cons.mp ht with h' | h'
        · exact ⟨maker, List.mem_cons_self _ _, by simp [h']⟩
        · simp at h'
    · simp [match_level, if_neg hr]

/-!
### Lemmas about `match_levels`
-/

/-- The level loop only erases levels and rewrites their queues: the surviving
prices form a sublist of the original prices (so sortedness is preserved). -/
theorem match_levels_prices_sublist (toid ttid : Nat) (side : Side) (price : Int)
    (im : Bool) (ls : List PriceLevel) (r : Int) :
    ((match_levels toid ttid side price im ls r).2.1.map PriceLevel.price).Sublist
      (ls.map PriceLevel.price) := by
  induction ls generalizing r with
  | nil => simp [match_levels]
  | cons lvl rest ih =>
    by_cases hr : 0 < r
    · by_cases hbrk : im = false ∧
        ((side = Side.Buy ∧ price < lvl.price) ∨ (side = Side.Sell ∧ lvl.price < price))
      · simp [match_levels, if_pos hr, if_pos hbrk]
      · by_cases he : (match_level toid ttid side lvl.orders r).2.1.isEmpty
        · simp only [match_levels, if_pos hr, if_neg hbrk, if_pos he]
          exact (ih _).cons _
        · simp only [match_levels, if_pos hr, if_neg hbrk, if_neg he]
          simpa using List.Sublist.cons₂ lvl.price (ih _)
    · simp [match_levels, if_neg hr]

/-- The level loop never leaves an empty level behind. -/
theorem match_levels_nonempty (toid ttid : Nat) (side : Side) (price : Int)
    (im : Bool) (ls : List PriceLevel) (r : Int) (h : levels_nonempty ls) :
    levels_nonempty (match_levels toid ttid side price im ls r).2.1 := by
  induction ls generalizing r with
  | nil => simpa [match_levels] using h
  | cons lvl rest ih =>
    have hrest : levels_nonempty rest := fun l hl => h l (List.mem_cons_of_mem _ hl)
    by_cases hr : 0 < r
    · by_cases hbrk : im = false ∧
        ((side = Side.Buy ∧ price < lvl.price) ∨ (side = Side.Sell ∧ lvl.price < price))
      · simpa [match_levels, if_pos hr, if_pos hbrk] using h
      · by_cases he : (match_level toid ttid side lvl.orders r).2.1.isEmpty
        · simp only [match_levels, if_pos hr, if_neg hbrk, if_pos he]
          exact ih _ hrest
        · simp only [match_levels, if_pos hr, if_neg hbrk, if_neg he]
          intro l hl
          rcases List.mem_cons.mp hl with h' | h'
          · subst h'
            simpa using fun hnil => he (by simp [hnil])
          · exact ih _ hrest l h'
    · simpa [match_levels, if_neg hr] using h

/-- The ids linked on a side form a sublist of the original ids after the level
loop runs. -/
theorem match_levels_ids_sublist (toid ttid : Nat) (side : Side) (price : Int)
    (im : Bool) (ls : List PriceLevel) (r : Int) :
    (levels_ids (match_levels toid ttid side price im ls r).2.1).Sublist
      (levels_ids ls) := by
  induction ls generalizing r with
  | nil => simp [match_levels, levels_ids, levels_orders]
  | cons lvl rest ih =>
    by_cases hr : 0 < r
    · by_cases hbrk : im = false ∧
        ((side = Side.Buy ∧ price < lvl.price) ∨ (side = Side.Sell ∧ lvl.price < price))
      · simp [match_levels, if_pos hr, if_pos hbrk]
      · by_cases he : (match_level toid ttid side lvl.orders r).2.1.isEmpty
        · simp only [match_levels, if_pos hr, if_neg hbrk, if_pos he]
          refine (ih _).trans ?_
          simp only [levels_ids, levels_orders_cons, List.map_append]
          exact List.sublist_append_right _ _
        · simp only [match_levels, if_pos hr, if_neg hbrk, if_neg he, levels_ids,
            levels_orders_cons, List.map_append]
          refine List.Sublist.append ?_ (ih _)
          simpa using match_level_ids_sublist toid ttid side lvl.orders r
    · simp [match_levels, if_neg hr]

/-- The level loop preserves the per-order quantity invariant. -/
theorem match_levels_qty_ok (toid ttid : Nat) (side : Side) (price : Int)
    (im : Bool) (ls : List PriceLevel) (r : Int)
    (h : ∀ o ∈ levels_orders ls, order_qty_ok o) :
    ∀ o ∈ levels_orders (match_levels toid ttid side price im ls r).2.1,
      order_qty_ok o := by
  induction ls generalizing r with
  | nil => simpa [match_levels] using h
  | cons lvl rest ih =>
    have hlvl : ∀ o ∈ lvl.orders, order_qty_ok o := fun o ho =>
      h o (by simp [levels_orders_cons, ho])
    have hrest : ∀ o ∈ levels_orders rest, order_qty_ok o := fun o ho =>
      h o (by simp [levels_orders_cons, ho])
    by_cases hr : 0 < r
    · by_cases hbrk : im = false ∧
        ((side = Side.Buy ∧ price < lvl.price) ∨ (side = Side.Sell ∧ lvl.price < price))
      · simpa [match_levels, if_pos hr, if_pos hbrk] using h
      · by_cases he : (match_level toid ttid side lvl.orders r).2.1.isEmpty
        · simp only [match_levels, if_pos hr, if_neg hbrk, if_pos he]
          exact ih _ hrest
        · simp only [match_levels, if_pos hr, if_neg hbrk, if_neg he]
          intro o ho
          rw [levels_orders_cons] at ho
          rcases List.mem_append.mp ho with h' | h'
          · exact match_level_qty_ok toid ttid side lvl.orders r hlvl o (by simpa using h')
          · exact ih _ hrest o h'
    · simpa [match_levels, if_neg hr] using h

/-- Every trade emitted by the level loop descends from a maker linked at one of
the input levels. -/
theorem match_levels_trades_src (toid ttid : Nat) (side : Side) (price : Int)
    (im : Bool) (ls : List PriceLevel) (r : Int) :
    ∀ t ∈ (match_levels toid ttid side price im ls r).1, ∃ o ∈ levels_orders ls,
      t.maker_order_id = o.order_id ∧ t.maker_trader_id = o.trader_id ∧
        t.price = o.price ∧ t.taker_side = side ∧ t.taker_order_id = toid ∧
        t.taker_trader_id = ttid := by
  induction ls generalizing r with
  | nil => simp [match_levels]
  | cons lvl rest ih =>
    by_cases hr : 0 < r
    · by_cases hbrk : im = false ∧
        ((side = Side.Buy ∧ price < lvl.price) ∨ (side = Side.Sell ∧ lvl.price < price))
      · simp [match_levels, if_pos hr, if_pos hbrk]
      · have main : ∀ t ∈ (match_level toid ttid side lvl.orders r).1 ++
            (match_levels toid ttid side price im rest
              (match_level toid ttid side lvl.orders r).2.2).1,
            ∃ o ∈ levels_orders (lvl :: rest),
              t.maker_order_id = o.order_id ∧ t.maker_trader_id = o.trader_id ∧
                t.price = o.price ∧ t.taker_side = side ∧ t.taker_order_id = toid ∧
                t.taker_trader_id = ttid := by
          intro t ht
          rcases List.mem_append.mp ht with h' | h'
          · obtain ⟨o, ho, hp⟩ := match_level_trades_src toid ttid side lvl.orders r t h'
            exact ⟨o, by simp [levels_orders_cons, ho], hp⟩
          · obtain ⟨o, ho, hp⟩ := ih _ t h'
            exact ⟨o, by simp [levels_orders_cons, ho], hp⟩
        by_cases he : (match_level toid ttid side lvl.orders r).2.1.isEmpty
        · simp only [match_levels, if_pos hr, if_neg hbrk, if_pos he]
          exact main
        · simp only [match_levels, if_pos hr, if_neg hbrk, if_neg he]
          exact main
    · simp [match_levels, if_neg hr]

/-!
### Lemmas about `rest_order`
-/

/-- Prices after resting an order: the old prices, plus possibly the order's
price. -/
theorem rest_order_prices (is_bid : Bool) (o : Order) (ls : List PriceLevel) :
    ∀ q ∈ (rest_order is_bid o ls).map PriceLevel.price,
      q ∈ ls.map PriceLevel.price ∨ q = o.price := by
  induction ls with
  | nil => simp [rest_order]
  | cons lvl rest ih =>
    by_cases h₁ : level_before is_bid lvl.price o.price
    · simp only [rest_order, if_pos h₁]
      intro q hq
      rcases List.mem_cons.mp hq with h' | h'
      · exact Or.inl (by simp [h'])
      · rcases ih q h' with h'' | h''
        · exact Or.inl (by simp [h''])
        · exact Or.inr h''
    · by_cases h₂ : lvl.price = o.price
      · simp only [rest_order, if_neg h₁, if_pos h₂]
        intro q hq
        exact Or.inl (by simpa using hq)
      · simp only [rest_order, if_neg h₁, if_neg h₂]
        intro q hq
        rcases List.mem_cons.mp hq with h' | h'
        · exact Or.inr h'
        · exact Or.inl (by simpa using h')

/-- `find_or_create_level` + `push_back` keeps the side sorted. -/
theorem rest_order_sorted (is_bid : Bool) (o : Order) (ls : List PriceLevel)
    (h : sorted_side is_bid ls) : sorted_side is_bid (rest_order is_bid o ls) := by
  induction ls with
  | nil =>
    simp [rest_order, sorted_side]
  | cons lvl rest ih =>
    rw [sorted_side, List.map_cons, List.pairwise_cons] at h
    by_cases h₁ : level_before is_bid lvl.price o.price
    · simp only [rest_order, if_pos h₁]
      rw [sorted_side, List.map_cons, List.pairwise_cons]
      refine ⟨?_, ih h.2⟩
      intro q hq
      rcases rest_order_prices is_bid o rest q hq with h' | h'
      · exact h.1 q h'
      · subst h'
        exact level_before_iff.mp h₁
    · by_cases h₂ : lvl.price = o.price
      · simp only [rest_order, if_neg h₁, if_pos h₂]
        rw [sorted_side, List.map_cons, List.pairwise_cons]
        exact ⟨fun q hq => h.1 q hq, h.2⟩
      · simp only [rest_order, if_neg h₁, if_neg h₂]
        have hob : side_rel is_bid o.price lvl.price :=
          side_rel_of_not (fun hc => h₁ (level_before_iff.mpr hc)) h₂
        rw [sorted_side, List.map_cons, List.map_cons, List.pairwise_cons]
        refine ⟨?_, ?_⟩
        · intro q hq
          rcases List.mem_cons.mp hq with h' | h'
          · exact h' ▸ hob
          · exact side_rel_trans hob (h.1 q h')
        · rw [List.pairwise_cons]
          exact ⟨fun q hq => h.1 q hq, h.2⟩

/-- Resting an order never creates an empty level. -/
theorem rest_order_nonempty (is_bid : Bool) (o : Order) (ls : List PriceLevel)
    (h : levels_nonempty ls) : levels_nonempty (rest_order is_bid o ls) := by
  induction ls with
  | nil =>
    intro lvl hl
    simp only [rest_order] at hl
    rcases List.mem_singleton.mp hl with h'
    subst h'
    simp
  | cons lvl rest ih =>
    have hrest : levels_nonempty rest := fun l hl => h l (List.mem_cons_of_mem _ hl)
    by_cases h₁ : level_before is_bid lvl.price o.price
    · simp only [rest_order, if_pos h₁]
      intro l hl
      rcases List.mem_cons.mp hl with h' | h'
      · exact h' ▸ h lvl (List.mem_cons_self _ _)
      · exact ih hrest l h'
    · by_cases h₂ : lvl.price = o.price
      · simp only [rest_order, if_neg h₁, if_pos h₂]
        intro l hl
        rcases List.mem_cons.mp hl with h' | h'
        · subst h'
          simp
        · exact h l (List.mem_cons_of_mem _ h')
      · simp only [rest_order, if_neg h₁, if_neg h₂]
        intro l hl
        rcases List.mem_cons.mp hl with h' | h'
        · subst h'
          simp
        · exact h l h'

/-- The linked orders after resting: the old ones plus the new one. -/
theorem rest_order_orders (is_bid : Bool) (o : Order) (ls : List PriceLevel) :
    ∀ o' ∈ levels_orders (rest_order is_bid o ls),
      o' ∈ levels_orders ls ∨ o' = o := by
  induction ls with
  | nil =>
    intro o' h'
    simp only [rest_order, levels_orders] at h'
    simp at h'
    exact Or.inr h'
  | cons lvl rest ih =>
    by_cases h₁ : level_before is_bid lvl.price o.price
    · simp only [rest_order, if_pos h₁]
      intro o' h'
      rw [levels_orders_cons] at h'
      rcases List.mem_append.mp h' with h'' | h''
      · exact Or.inl (by simp [levels_orders_cons, h''])
      · rcases ih o' h'' with h₃ | h₃
        · exact Or.inl (by simp [levels_orders_cons, h₃])
        · exact Or.inr h₃
    · by_cases h₂ : lvl.price = o.price
      · simp only [rest_order, if_neg h₁, if_pos h₂]
        intro o' h'
        rw [levels_orders_cons] at h'
        rcases List.mem_append.mp h' with h'' | h''
        · simp only [List.mem_append, List.mem_singleton] at h''
          rcases h'' with h₃ | h₃
          · exact Or.inl (by simp [levels_orders_cons, h₃])
          · exact Or.inr h₃
        · exact Or.inl (by simp [levels_orders_cons, h''])
      · simp only [rest_order, if_neg h₁, if_neg h₂]
        intro o' h'
        rw [levels_orders_cons] at h'
        rcases List.mem_append.mp h' with h'' | h''
        · exact Or.inr (by simpa using h'')
        · exact Or.inl (by simpa [levels_orders_cons] using h'')

/-- The linked ids after resting are a permutation of the new id consed onto the
old ids. -/
theorem rest_order_ids_perm (is_bid : Bool) (o : Order) (ls : List PriceLevel) :
    (levels_ids (rest_order is_bid o ls)).Perm (o.order_id :: levels_ids ls) := by
  induction ls with
  | nil => simp [rest_order, levels_ids, levels_orders]
  | cons lvl rest ih =>
    simp only [levels_ids] at ih
    by_cases h₁ : level_before is_bid lvl.price o.price
    · simp only [rest_order, if_pos h₁, levels_ids, levels_orders_cons, List.map_append]
      exact (List.Perm.append_left _ ih).trans List.perm_middle
    · by_cases h₂ : lvl.price = o.price
      · simp only [rest_order, if_neg h₁, if_pos h₂, levels_ids, levels_orders_cons,
          List.map_append, List.map_cons, List.map_nil, List.append_assoc,
          List.singleton_append]
        exact List.perm_middle
      · simp only [rest_order, if_neg h₁, if_neg h₂, levels_ids, levels_orders_cons,
          List.map_append, List.map_cons, List.map_nil, List.singleton_append,
          List.cons_append]
        exact List.Perm.refl _

/-!
### Lemmas about `remove_order_at`
-/

/-- Removal only erases: the surviving prices form a sublist of the originals. -/
theorem remove_order_at_prices (is_bid : Bool) (p : Int) (oid : Nat)
    (ls : List PriceLevel) :
    ((remove_order_at is_bid p oid ls).map PriceLevel.price).Sublist
      (ls.map PriceLevel.price) := by
  induction ls with
  | nil => simp [remove_order_at]
  | cons lvl rest ih =>
    by_cases h₁ : level_before is_bid lvl.price p
    · simp only [remove_order_at, if_pos h₁, List.map_cons]
      exact ih.cons₂ _
    · by_cases h₂ : lvl.price = p
      · by_cases h₃ : (lvl.orders.eraseP (fun o => o.order_id == oid)).isEmpty
        · simp only [remove_order_at, if_neg h₁, if_pos h₂, if_pos h₃, List.map_cons]
          exact (List.Sublist.refl _).cons _
        · simp only [remove_order_at, if_neg h₁, if_pos h₂, if_neg h₃, List.map_cons]
          exact (List.Sublist.refl _).cons₂ _
      · simp [remove_order_at, if_neg h₁, if_neg h₂]

/-- Removal never leaves an empty level (the emptied level is erased). -/
theorem remove_order_at_nonempty (is_bid : Bool) (p : Int) (oid : Nat)
    (ls : List PriceLevel) (h : levels_nonempty ls) :
    levels_nonempty (remove_order_at is_bid p oid ls) := by
  induction ls with
  | nil => simpa [remove_order_at] using h
  | cons lvl rest ih =>
    have hrest : levels_nonempty rest := fun l hl => h l (List.mem_cons_of_mem _ hl)
    by_cases h₁ : level_before is_bid lvl.price p
    · simp only [remove_order_at, if_pos h₁]
      intro l hl
      rcases List.mem_cons.mp hl with h' | h'
      · exact h' ▸ h lvl (List.mem_cons_self _ _)
      · exact ih hrest l h'
    · by_cases h₂ : lvl.price = p
      · by_cases h₃ : (lvl.orders.eraseP (fun o => o.order_id == oid)).isEmpty
        · simp only [remove_order_at, if_neg h₁, if_pos h₂, if_pos h₃]
          exact hrest
        · simp only [remove_order_at, if_neg h₁, if_pos h₂, if_neg h₃]
          intro l hl
          rcases List.mem_cons.mp hl with h' | h'
          · subst h'
            show List.eraseP (fun o => o.order_id == oid) lvl.orders ≠ []
            intro hnil
            exact h₃ (by simp [hnil])
          · exact hrest l h'
      · simpa [remove_order_at, if_neg h₁, if_neg h₂] using h

/-- The orders surviving a removal form a sublist of the original orders. -/
theorem remove_order_at_orders (is_bid : Bool) (p : Int) (oid : Nat)
    (ls : List PriceLevel) :
    (levels_orders (remove_order_at is_bid p oid ls)).Sublist (levels_orders ls) := by
  induction ls with
  | nil => simp [remove_order_at]
  | cons lvl rest ih =>
    by_cases h₁ : level_before is_bid lvl.price p
    · simp only [remove_order_at, if_pos h₁, levels_orders_cons]
      exact List.Sublist.append (List.Sublist.refl _) ih
    · by_cases h₂ : lvl.price = p
      · by_cases h₃ : (lvl.orders.eraseP (fun o => o.order_id == oid)).isEmpty
        · simp only [remove_order_at, if_neg h₁, if_pos h₂, if_pos h₃, levels_orders_cons]
          exact List.sublist_append_right _ _
        · simp only [remove_order_at, if_neg h₁, if_pos h₂, if_neg h₃, levels_orders_cons]
          exact List.Sublist.append (List.eraseP_sublist _) (List.Sublist.refl _)
      · simp [remove_order_at, if_neg h₁, if_neg h₂]

/-!
### Lemmas about `set_qty_in_levels`
-/

/-- The in-place quantity update leaves the level structure (prices, counts)
untouched. -/
theorem set_qty_in_levels_prices (oid : Nat) (nq : Int) (ls : List PriceLevel) :
    (set_qty_in_levels oid nq ls).map PriceLevel.price = ls.map PriceLevel.price := by
  simp [set_qty_in_levels]

theorem set_qty_in_levels_nonempty (oid : Nat) (nq : Int) (ls : List PriceLevel)
    (h : levels_nonempty ls) : levels_nonempty (set_qty_in_levels oid nq ls) := by
  intro l hl
  simp only [set_qty_in_levels, List.mem_map] at hl
  obtain ⟨lvl, hlvl, rfl⟩ := hl
  simpa using fun hnil => h lvl hlvl (by simpa using congrArg List.length hnil)

/-- The orders after the in-place update: each is an old order, either untouched
or with only `qty_remaining` rewritten to the new quantity. -/
theorem set_qty_in_levels_orders (oid : Nat) (nq : Int) (ls : List PriceLevel) :
    ∀ o' ∈ levels_orders (set_qty_in_levels oid nq ls), ∃ o ∈ levels_orders ls,
      (o.order_id ≠ oid ∧ o' = o) ∨
        (o.order_id = oid ∧ o' = { o with qty_remaining := nq }) := by
  intro o' h'
  simp only [levels_orders, set_qty_in_levels, List.mem_flatten, List.mem_map] at h'
  obtain ⟨os, ⟨l₂, ⟨lvl, hlvl, rfl⟩, rfl⟩, ho'⟩ := h'
  simp only [List.mem_map] at ho'
  obtain ⟨o, ho, rfl⟩ := ho'
  refine ⟨o, ?_, ?_⟩
  · simp only [levels_orders, List.mem_flatten, List.mem_map]
    exact ⟨lvl.orders, ⟨lvl, hlvl, rfl⟩, ho⟩
  · by_cases h : o.order_id = oid
    · exact Or.inr ⟨h, by simp [h]⟩
    · exact Or.inl ⟨h, by simp [h]⟩

/-- The in-place update leaves every order's id unchanged. -/
theorem set_qty_order_id (oid : Nat) (nq : Int) (o : Order) :
    (if o.order_id = oid then { o with qty_remaining := nq } else o).order_id =
      o.order_id := by
  by_cases h : o.order_id = oid <;> simp [h]

/-- The in-place quantity update does not change the linked ids. -/
theorem set_qty_in_levels_ids (oid : Nat) (nq : Int) (ls : List PriceLevel) :
    levels_ids (set_qty_in_levels oid nq ls) = levels_ids ls := by
  induction ls with
  | nil => rfl
  | cons lvl rest ih =>
    simp only [levels_ids, set_qty_in_levels, List.map_cons, levels_orders_cons,
      List.map_append] at ih ⊢
    rw [List.map_map]
    have h1 : List.map
        (Order.order_id ∘ fun o =>
          if o.order_id = oid then { o with qty_remaining := nq } else o) lvl.orders =
        List.map Order.order_id lvl.orders :=
      List.map_congr_left fun o _ => by
        simp only [Function.comp_apply]
        exact set_qty_order_id oid nq o
    rw [h1, ih]

/-!
### Book-level preservation lemmas
-/

/-- `has_order` is membership of the id among the linked ids. -/
theorem has_order_false_iff (b : OrderBook) (oid : Nat) :
    b.has_order oid = false ↔ oid ∉ b.all_orders.map Order.order_id := by
  simp [OrderBook.has_order, List.any_eq_true, List.mem_map]

/-- A found order is linked and carries the looked-up id. -/
theorem find_order_mem {b : OrderBook} {oid : Nat} {o : Order}
    (h : b.find_order oid = some o) : o ∈ b.all_orders ∧ o.order_id = oid := by
  have hm := List.mem_of_find?_eq_some h
  have hp := List.find?_some h
  simp only [beq_iff_eq] at hp
  exact ⟨hm, hp⟩

/-- With unique ids, the found order is the only linked order with its id. -/
theorem find_order_unique {b : OrderBook} {oid : Nat} {o : Order}
    (hnd : ids_nodup b) (h : b.find_order oid = some o) :
    ∀ o' ∈ b.all_orders, o'.order_id = oid → o' = o := by
  intro o' ho' hid
  obtain ⟨hm, hido⟩ := find_order_mem h
  have := List.inj_on_of_nodup_map hnd ho' hm (by rw [hid, hido])
  exact this

/-- The ids after matching form a sublist of the ids before. -/
theorem match_order_ids_sublist (b : OrderBook) (toid tid : Nat) (side : Side)
    (price qty : Int) (im : Bool) :
    ((b.match_order toid tid side price qty im).1.all_orders.map Order.order_id).Sublist
      (b.all_orders.map Order.order_id) := by
  have hb := match_levels_ids_sublist toid tid side price im b.bids qty
  have ha := match_levels_ids_sublist toid tid side price im b.asks qty
  by_cases hs : side = Side.Buy
  · simp only [OrderBook.match_order, if_pos hs, all_orders_eq, List.map_append]
    exact List.Sublist.append (List.Sublist.refl _) ha
  · simp only [OrderBook.match_order, if_neg hs, all_orders_eq, List.map_append]
    exact List.Sublist.append hb (List.Sublist.refl _)

/-- Matching preserves the sortedness / no-empty-level invariant. -/
theorem match_order_sorted (b : OrderBook) (toid tid : Nat) (side : Side)
    (price qty : Int) (im : Bool) (h : book_sorted b) :
    book_sorted (b.match_order toid tid side price qty im).1 := by
  obtain ⟨hsb, hsa, hnb, hna⟩ := h
  by_cases hs : side = Side.Buy
  · simp only [OrderBook.match_order, if_pos hs]
    exact ⟨hsb, List.Pairwise.sublist (match_levels_prices_sublist toid tid side price im b.asks qty) hsa,
           hnb, match_levels_nonempty toid tid side price im b.asks qty hna⟩
  · simp only [OrderBook.match_order, if_neg hs]
    exact ⟨List.Pairwise.sublist (match_levels_prices_sublist toid tid side price im b.bids qty) hsb,
           hsa, match_levels_nonempty toid tid side price im b.bids qty hnb, hna⟩

/-- Matching preserves the per-order quantity invariant. -/
theorem match_order_qty_ok (b : OrderBook) (toid tid : Nat) (side : Side)
    (price qty : Int) (im : Bool) (h : qty_ok b) :
    qty_ok (b.match_order toid tid side price qty im).1 := by
  rw [qty_ok, all_orders_eq] at h ⊢
  have hb : ∀ o ∈ levels_orders b.bids, order_qty_ok o := fun o ho =>
    h o (List.mem_append.mpr (Or.inl ho))
  have ha : ∀ o ∈ levels_orders b.asks, order_qty_ok o := fun o ho =>
    h o (List.mem_append.mpr (Or.inr ho))
  by_cases hs : side = Side.Buy
  · simp only [OrderBook.match_order, if_pos hs]
    intro o ho
    rcases List.mem_append.mp ho with h' | h'
    · exact hb o h'
    · exact match_levels_qty_ok toid tid side price im b.asks qty ha o h'
  · simp only [OrderBook.match_order, if_neg hs]
    intro o ho
    rcases List.mem_append.mp ho with h' | h'
    · exact match_levels_qty_ok toid tid side price im b.bids qty hb o h'
    · exact ha o h'

/-- `remove_order` only erases: ids form a sublist. -/
theorem remove_order_ids_sublist (b : OrderBook) (o : Order) :
    ((b.remove_order o).all_orders.map Order.order_id).Sublist
      (b.all_orders.map Order.order_id) := by
  by_cases hs : o.side = Side.Buy
  · simp only [OrderBook.remove_order, if_pos hs, all_orders_eq, List.map_append]
    exact List.Sublist.append
      ((remove_order_at_orders true o.price o.order_id b.bids).map _)
      (List.Sublist.refl _)
  · simp only [OrderBook.remove_order, if_neg hs, all_orders_eq, List.map_append]
    exact List.Sublist.append (List.Sublist.refl _)
      ((remove_order_at_orders false o.price o.order_id b.asks).map _)

/-- `remove_order` preserves the sortedness invariant. -/
theorem remove_order_sorted (b : OrderBook) (o : Order) (h : book_sorted b) :
    book_sorted (b.remove_order o) := by
  obtain ⟨hsb, hsa, hnb, hna⟩ := h
  by_cases hs : o.side = Side.Buy
  · simp only [OrderBook.remove_order, if_pos hs]
    exact ⟨List.Pairwise.sublist (remove_order_at_prices true o.price o.order_id b.bids) hsb, hsa,
           remove_order_at_nonempty true o.price o.order_id b.bids hnb, hna⟩
  · simp only [OrderBook.remove_order, if_neg hs]
    exact ⟨hsb, List.Pairwise.sublist (remove_order_at_prices false o.price o.order_id b.asks) hsa,
           hnb, remove_order_at_nonempty false o.price o.order_id b.asks hna⟩

/-- `remove_order` preserves the quantity invariant. -/
theorem remove_order_qty_ok (b : OrderBook) (o : Order) (h : qty_ok b) :
    qty_ok (b.remove_order o) := by
  rw [qty_ok, all_orders_eq] at h ⊢
  by_cases hs : o.side = Side.Buy
  · simp only [OrderBook.remove_order, if_pos hs]
    intro o' ho'
    rcases List.mem_append.mp ho' with h' | h'
    · exact h o' (List.mem_append.mpr
        (Or.inl ((remove_order_at_orders true o.price o.order_id b.bids).mem h')))
    · exact h o' (List.mem_append.mpr (Or.inr h'))
  · simp only [OrderBook.remove_order, if_neg hs]
    intro o' ho'
    rcases List.mem_append.mp ho' with h' | h'
    · exact h o' (List.mem_append.mpr (Or.inl h'))
    · exact h o' (List.mem_append.mpr
        (Or.inr ((remove_order_at_orders false o.price o.order_id b.asks).mem h')))

/-- `set_qty` preserves the sortedness invariant. -/
theorem set_qty_sorted (b : OrderBook) (oid : Nat) (nq : Int) (h : book_sorted b) :
    book_sorted (b.set_qty oid nq) := by
  obtain ⟨hsb, hsa, hnb, hna⟩ := h
  refine ⟨?_, ?_, ?_, ?_⟩
  · rw [sorted_side]
    show ((set_qty_in_levels oid nq b.bids).map PriceLevel.price).Pairwise _
    rw [set_qty_in_levels_prices]
    exact hsb
  · rw [sorted_side]
    show ((set_qty_in_levels oid nq b.asks).map PriceLevel.price).Pairwise _
    rw [set_qty_in_levels_prices]
    exact hsa
  · exact set_qty_in_levels_nonempty oid nq b.bids hnb
  · exact set_qty_in_levels_nonempty oid nq b.asks hna

/-- `set_qty` does not change the linked ids. -/
theorem set_qty_ids (b : OrderBook) (oid : Nat) (nq : Int) :
    (b.set_qty oid nq).all_orders.map Order.order_id =
      b.all_orders.map Order.order_id := by
  rw [all_orders_eq, all_orders_eq, List.map_append, List.map_append]
  show levels_ids (set_qty_in_levels oid nq b.bids) ++
      levels_ids (set_qty_in_levels oid nq b.asks) = _
  rw [set_qty_in_levels_ids, set_qty_in_levels_ids]
  rfl

/-- The orders after `set_qty`: each descends from a linked order, untouched
unless it carries the updated id. -/
theorem set_qty_orders (b : OrderBook) (oid : Nat) (nq : Int) :
    ∀ o' ∈ (b.set_qty oid nq).all_orders, ∃ o ∈ b.all_orders,
      (o.order_id ≠ oid ∧ o' = o) ∨
        (o.order_id = oid ∧ o' = { o with qty_remaining := nq }) := by
  intro o' ho'
  rw [all_orders_eq] at ho'
  rcases List.mem_append.mp ho' with h' | h'
  · obtain ⟨o, ho, hc⟩ := set_qty_in_levels_orders oid nq b.bids o' h'
    exact ⟨o, by rw [all_orders_eq]; exact List.mem_append.mpr (Or.inl ho), hc⟩
  · obtain ⟨o, ho, hc⟩ := set_qty_in_levels_orders oid nq b.asks o' h'
    exact ⟨o, by rw [all_orders_eq]; exact List.mem_append.mpr (Or.inr ho), hc⟩

/-- The resting order constructed at order_book.cpp:48-50 (the remainder is both
the remaining and the original quantity of the rested order). -/
def rested_order (oid tid : Nat) (side : Side) (price rem : Int) : Order :=
  { order_id := oid, trader_id := tid, side := side, price := price,
    qty_remaining := rem, qty_original := rem }

/-- Case analysis on the book produced by `add_limit_internal`: unchanged
(duplicate id), the post-match book (fully filled or pool exhausted), or the
post-match book with the remainder rested. -/
theorem add_limit_internal_cases (b : OrderBook) (oid tid : Nat) (side : Side)
    (price qty : Int) :
    (b.add_limit_internal oid tid side price qty).1 = b ∨
    (b.add_limit_internal oid tid side price qty).1 =
      (b.match_order oid tid side price qty false).1 ∨
    (b.has_order oid = false ∧ 0 < (b.match_order oid tid side price qty false).2.2 ∧
      (b.add_limit_internal oid tid side price qty).1 =
        (if side = Side.Buy then
          { (b.match_order oid tid side price qty false).1 with
              bids := rest_order true
                (rested_order oid tid side price (b.match_order oid tid side price qty false).2.2)
                (b.match_order oid tid side price qty false).1.bids }
         else
          { (b.match_order oid tid side price qty false).1 with
              asks := rest_order false
                (rested_order oid tid side price (b.match_order oid tid side price qty false).2.2)
                (b.match_order oid tid side price qty false).1.asks })) := by
  by_cases hd : b.has_order oid
  · exact Or.inl (by simp [OrderBook.add_limit_internal, hd])
  · by_cases hr : (b.match_order oid tid side price qty false).2.2 ≤ 0
    · exact Or.inr (Or.inl (by simp [OrderBook.add_limit_internal, hd, hr]))
    · by_cases hc : (b.match_order oid tid side price qty false).1.capacity ≤
          (b.match_order oid tid side price qty false).1.live_count
      · exact Or.inr (Or.inl (by simp [OrderBook.add_limit_internal, hd, hr, hc]))
      · refine Or.inr (Or.inr ⟨by simpa using hd, by omega, ?_⟩)
        by_cases hs : side = Side.Buy
        · subst hs
          simp [OrderBook.add_limit_internal, hd, hr, hc, rested_order]
        · simp [OrderBook.add_limit_internal, hd, hr, hc, hs, rested_order]

/-- `add_limit_internal` preserves the sortedness invariant. -/
theorem add_limit_internal_sorted (b : OrderBook) (oid tid : Nat) (side : Side)
    (price qty : Int) (h : book_sorted b) :
    book_sorted (b.add_limit_internal oid tid side price qty).1 := by
  have hm := match_order_sorted b oid tid side price qty false h
  rcases add_limit_internal_cases b oid tid side price qty with hc | hc | ⟨_, _, hc⟩
  · rw [hc]; exact h
  · rw [hc]; exact hm
  · rw [hc]
    obtain ⟨hsb, hsa, hnb, hna⟩ := hm
    by_cases hs : side = Side.Buy
    · simp only [if_pos hs]
      exact ⟨rest_order_sorted true _ _ hsb, hsa, rest_order_nonempty true _ _ hnb, hna⟩
    · simp only [if_neg hs]
      exact ⟨hsb, rest_order_sorted false _ _ hsa, hnb, rest_order_nonempty false _ _ hna⟩

/-- The linked ids of the book returned by `add_limit_internal` are duplicate-free
and — in the resting branch — a permutation of the new id consed onto the
post-match ids. -/
theorem add_limit_internal_nodup (b : OrderBook) (oid tid : Nat) (side : Side)
    (price qty : Int) (h : ids_nodup b) :
    ids_nodup (b.add_limit_internal oid tid side price qty).1 := by
  have hsub := match_order_ids_sublist b oid tid side price qty false
  have hm : ids_nodup (b.match_order oid tid side price qty false).1 :=
    List.Nodup.sublist hsub h
  rcases add_limit_internal_cases b oid tid side price qty with hc | hc | ⟨hd, _, hc⟩
  · rw [hc]; exact h
  · rw [hc]; exact hm
  · have hni : oid ∉ (b.match_order oid tid side price qty false).1.all_orders.map
        Order.order_id :=
      fun hmem => (has_order_false_iff b oid).mp hd (hsub.mem hmem)
    have hsplit : (b.match_order oid tid side price qty false).1.all_orders.map
        Order.order_id =
        levels_ids (b.match_order oid tid side price qty false).1.bids ++
          levels_ids (b.match_order oid tid side price qty false).1.asks := by
      rw [all_orders_eq, List.map_append]; rfl
    rw [ids_nodup] at hm
    rw [hsplit] at hm hni
    have hcons : (oid :: (levels_ids (b.match_order oid tid side price qty false).1.bids ++
        levels_ids (b.match_order oid tid side price qty false).1.asks)).Nodup :=
      List.nodup_cons.mpr ⟨hni, hm⟩
    rw [hc]
    by_cases hs : side = Side.Buy
    · simp only [if_pos hs]
      rw [ids_nodup, all_orders_eq, List.map_append]
      have hperm : (levels_ids (rest_order true
          (rested_order oid tid side price (b.match_order oid tid side price qty false).2.2)
          (b.match_order oid tid side price qty false).1.bids)).Perm
          (oid :: levels_ids (b.match_order oid tid side price qty false).1.bids) := by
        simpa [rested_order] using rest_order_ids_perm true
          (rested_order oid tid side price (b.match_order oid tid side price qty false).2.2)
          (b.match_order oid tid side price qty false).1.bids
      exact List.Perm.nodup (List.Perm.symm (List.Perm.append_right _ hperm)) hcons
    · simp only [if_neg hs]
      rw [ids_nodup, all_orders_eq, List.map_append]
      have hperm : (levels_ids (rest_order false
          (rested_order oid tid side price (b.match_order oid tid side price qty false).2.2)
          (b.match_order oid tid side price qty false).1.asks)).Perm
          (oid :: levels_ids (b.match_order oid tid side price qty false).1.asks) := by
        simpa [rested_order] using rest_order_ids_perm false
          (rested_order oid tid side price (b.match_order oid tid side price qty false).2.2)
          (b.match_order oid tid side price qty false).1.asks
      refine List.Perm.nodup (List.Perm.symm ?_) hcons
      exact (List.Perm.append_left _ hperm).trans List.perm_middle

/-- `add_limit_internal` preserves the quantity invariant. -/
theorem add_limit_internal_qty_ok (b : OrderBook) (oid tid : Nat) (side : Side)
    (price qty : Int) (h : qty_ok b) :
    qty_ok (b.add_limit_internal oid tid side price qty).1 := by
  have hm := match_order_qty_ok b oid tid side price qty false h
  rcases add_limit_internal_cases b oid tid side price qty with hc | hc | ⟨_, hpos, hc⟩
  · rw [hc]; exact h
  · rw [hc]; exact hm
  · rw [hc]
    have hnew : order_qty_ok
        (rested_order oid tid side price (b.match_order oid tid side price qty false).2.2) :=
      ⟨hpos, le_refl _⟩
    rw [qty_ok, all_orders_eq] at hm
    by_cases hs : side = Side.Buy
    · simp only [if_pos hs]
      rw [qty_ok, all_orders_eq]
      intro o' ho'
      rcases List.mem_append.mp ho' with h' | h'
      · rcases rest_order_orders true _ _ o' h' with h'' | h''
        · exact hm o' (List.mem_append.mpr (Or.inl h''))
        · exact h'' ▸ hnew
      · exact hm o' (List.mem_append.mpr (Or.inr h'))
    · simp only [if_neg hs]
      rw [qty_ok, all_orders_eq]
      intro o' ho'
      rcases List.mem_append.mp ho' with h' | h'
      · exact hm o' (List.mem_append.mpr (Or.inl h'))
      · rcases rest_order_orders false _ _ o' h' with h'' | h''
        · exact hm o' (List.mem_append.mpr (Or.inr h''))
        · exact h'' ▸ hnew

/-- Case analysis on the book produced by `cancel`. -/
theorem cancel_cases (b : OrderBook) (oid : Nat) :
    (b.cancel oid).1 = b ∨
      ∃ o, b.find_order oid = some o ∧ (b.cancel oid).1 = b.remove_order o := by
  cases hf : b.find_order oid with
  | none => exact Or.inl (by simp [OrderBook.cancel, hf])
  | some o => exact Or.inr ⟨o, rfl, by simp [OrderBook.cancel, hf]⟩

/-- Case analysis on the book produced by `modify`: unchanged (unknown id),
cancel + re-add at the new price, cancel + re-add at the old price (quantity
increase), or the in-place quantity reduction. -/
theorem modify_cases (b : OrderBook) (oid : Nat) (nq np : Int) :
    (b.modify oid nq np).1 = b ∨
    ∃ o, b.find_order oid = some o ∧
      ((b.modify oid nq np).1 =
          ((b.remove_order o).add_limit_internal oid o.trader_id o.side np nq).1 ∨
        (b.modify oid nq np).1 =
          ((b.remove_order o).add_limit_internal oid o.trader_id o.side o.price nq).1 ∨
        (nq < o.qty_remaining ∧ (b.modify oid nq np).1 = b.set_qty oid nq)) := by
  cases hf : b.find_order oid with
  | none => exact Or.inl (by simp [OrderBook.modify, hf])
  | some o =>
    by_cases hp : np ≠ 0 ∧ np ≠ o.price
    · exact Or.inr ⟨o, rfl, Or.inl (by simp [OrderBook.modify, hf, hp])⟩
    · by_cases hq : nq < o.qty_remaining
      · exact Or.inr ⟨o, rfl, Or.inr (Or.inr ⟨hq,
          by simp [OrderBook.modify, hf, hp, hq]⟩)⟩
      · exact Or.inr ⟨o, rfl, Or.inr (Or.inl
          (by simp [OrderBook.modify, hf, hp, hq]))⟩

/-- The in-place quantity reduction preserves the quantity invariant when the
new quantity is positive (the reduce branch guarantees it is below the found
order's remainder, and unique ids tie the rewritten order to the found one). -/
theorem set_qty_qty_ok (b : OrderBook) {oid : Nat} {nq : Int} {o : Order}
    (hnd : ids_nodup b) (hq : qty_ok b) (hf : b.find_order oid = some o)
    (hlt : nq < o.qty_remaining) (hpos : 0 < nq) : qty_ok (b.set_qty oid nq) := by
  intro o' ho'
  obtain ⟨ox, hox, hc⟩ := set_qty_orders b oid nq o' ho'
  rcases hc with ⟨hne, he'⟩ | ⟨hid, he'⟩
  · rw [he']
    exact hq ox hox
  · rw [he']
    have he : ox = o := find_order_unique hnd hf ox hox hid
    have hqo := hq ox hox
    rw [he] at hqo ⊢
    simp only [order_qty_ok] at hqo ⊢
    constructor
    · omega
    · omega

/-- The modify-positivity side condition: the risk gate rejects non-positive
quantities, so every `Modify` event reaching the book carries `new_qty ≥ 1`. -/
def modify_qty_positive : BookOp → Prop
  | BookOp.modify _ nq _ => 0 < nq
  | _ => True

/-- Every public operation preserves the sortedness / no-empty-level invariant. -/
theorem apply_op_sorted (b : OrderBook) (op : BookOp) (h : book_sorted b) :
    book_sorted (apply_op b op) := by
  cases op with
  | addLimit oid tid side price qty =>
    exact add_limit_internal_sorted b oid tid side price qty h
  | addMarket oid tid side qty =>
    exact match_order_sorted b oid tid side 0 qty true h
  | cancel oid =>
    show book_sorted (b.cancel oid).1
    rcases cancel_cases b oid with hc | ⟨o, _, hc⟩
    · rw [hc]; exact h
    · rw [hc]; exact remove_order_sorted b o h
  | modify oid nq np =>
    show book_sorted (b.modify oid nq np).1
    rcases modify_cases b oid nq np with hc | ⟨o, _, hc | hc | ⟨_, hc⟩⟩
    · rw [hc]; exact h
    · rw [hc]
      exact add_limit_internal_sorted _ _ _ _ _ _ (remove_order_sorted b o h)
    · rw [hc]
      exact add_limit_internal_sorted _ _ _ _ _ _ (remove_order_sorted b o h)
    · rw [hc]; exact set_qty_sorted b oid nq h

/-- Every public operation whose `Modify` quantity is positive preserves
uniqueness of ids and the per-order quantity invariant. -/
theorem apply_op_inv (b : OrderBook) (op : BookOp) (hnd : ids_nodup b)
    (hq : qty_ok b) (hpos : modify_qty_positive op) :
    ids_nodup (apply_op b op) ∧ qty_ok (apply_op b op) := by
  cases op with
  | addLimit oid tid side price qty =>
    exact ⟨add_limit_internal_nodup b oid tid side price qty hnd,
           add_limit_internal_qty_ok b oid tid side price qty hq⟩
  | addMarket oid tid side qty =>
    exact ⟨List.Nodup.sublist (match_order_ids_sublist b oid tid side 0 qty true) hnd,
           match_order_qty_ok b oid tid side 0 qty true hq⟩
  | cancel oid =>
    show ids_nodup (b.cancel oid).1 ∧ qty_ok (b.cancel oid).1
    rcases cancel_cases b oid with hc | ⟨o, _, hc⟩
    · rw [hc]; exact ⟨hnd, hq⟩
    · rw [hc]
      exact ⟨List.Nodup.sublist (remove_order_ids_sublist b o) hnd,
             remove_order_qty_ok b o hq⟩
  | modify oid nq np =>
    show ids_nodup (b.modify oid nq np).1 ∧ qty_ok (b.modify oid nq np).1
    have hpos' : 0 < nq := hpos
    rcases modify_cases b oid nq np with hc | ⟨o, hf, hc | hc | ⟨hlt, hc⟩⟩
    · rw [hc]; exact ⟨hnd, hq⟩
    · rw [hc]
      exact ⟨add_limit_internal_nodup _ _ _ _ _ _
               (List.Nodup.sublist (remove_order_ids_sublist b o) hnd),
             add_limit_internal_qty_ok _ _ _ _ _ _ (remove_order_qty_ok b o hq)⟩
    · rw [hc]
      exact ⟨add_limit_internal_nodup _ _ _ _ _ _
               (List.Nodup.sublist (remove_order_ids_sublist b o) hnd),
             add_limit_internal_qty_ok _ _ _ _ _ _ (remove_order_qty_ok b o hq)⟩
    · rw [hc]
      constructor
      · rw [ids_nodup, set_qty_ids]
        exact hnd
      · exact set_qty_qty_ok b hnd hq hf hlt hpos'

/-- The freshly constructed book satisfies every invariant. -/
theorem empty_book_inv (cap : Nat) :
    book_sorted (empty_book cap) ∧ ids_nodup (empty_book cap) ∧
      qty_ok (empty_book cap) := by
  refine ⟨⟨?_, ?_, ?_, ?_⟩, ?_, ?_⟩ <;>
    simp [empty_book, sorted_side, levels_nonempty, ids_nodup, qty_ok,
      OrderBook.all_orders]

/-- The sortedness invariant holds in every reachable book. -/
theorem run_ops_sorted (cap : Nat) (ops : List BookOp) :
    book_sorted (run_ops cap ops) := by
  have main : ∀ (l : List BookOp) (b : OrderBook), book_sorted b →
      book_sorted (l.foldl apply_op b) := by
    intro l
    induction l with
    | nil => exact fun b h => h
    | cons op rest ih =>
      intro b h
      rw [List.foldl_cons]
      exact ih _ (apply_op_sorted b op h)
  exact main ops _ (empty_book_inv cap).1

/-- Unique ids and the quantity invariant hold in every book reachable with
positive modify quantities. -/
theorem run_ops_inv (cap : Nat) (ops : List BookOp)
    (hpos : ∀ op ∈ ops, modify_qty_positive op) :
    ids_nodup (run_ops cap ops) ∧ qty_ok (run_ops cap ops) := by
  have main : ∀ (l : List BookOp), (∀ op ∈ l, modify_qty_positive op) →
      ∀ (b : OrderBook), ids_nodup b → qty_ok b →
      ids_nodup (l.foldl apply_op b) ∧ qty_ok (l.foldl apply_op b) := by
    intro l
    induction l with
    | nil => exact fun _ b hnd hq => ⟨hnd, hq⟩
    | cons op rest ih =>
      intro hl b hnd hq
      rw [List.foldl_cons]
      obtain ⟨hnd', hq'⟩ := apply_op_inv b op hnd hq (hl op (List.mem_cons_self _ _))
      exact ih (fun o ho => hl o (List.mem_cons_of_mem _ ho)) _ hnd' hq'
  exact main ops hpos _ (empty_book_inv cap).2.1 (empty_book_inv cap).2.2

/-!
### Lemmas about the account table
-/

/-- Updating a trader's account changes exactly that trader's lookup, applying
the update function. -/
theorem acc_get_update_self (accs : List (Nat × Account)) (tid : Nat)
    (f : Account → Account) :
    acc_get (acc_update tid f accs) tid = (acc_get accs tid).map f := by
  induction accs with
  | nil => rfl
  | cons a rest ih =>
    obtain ⟨t, acc⟩ := a
    by_cases h : t = tid
    · subst h
      simp [acc_update, acc_get]
    · simp only [acc_update, if_neg h]
      simp only [acc_get, List.find?] at ih ⊢
      have hb : (t == tid) = false := by simpa using h
      rw [hb]
      simpa using ih

/-- Updating one trader leaves every other trader's lookup unchanged. -/
theorem acc_get_update_other (accs : List (Nat × Account)) (tid tid' : Nat)
    (f : Account → Account) (h : tid' ≠ tid) :
    acc_get (acc_update tid f accs) tid' = acc_get accs tid' := by
  induction accs with
  | nil => rfl
  | cons a rest ih =>
    obtain ⟨t, acc⟩ := a
    by_cases ht : t = tid
    · subst ht
      have hb : (t == tid') = false := by simpa using fun hc => h hc.symm
      simp [acc_update, acc_get, List.find?, hb]
    · simp only [acc_update, if_neg ht]
      simp only [acc_get, List.find?] at ih ⊢
      cases hb : (t == tid') with
      | true => simp
      | false => simpa using ih

/-- C8 (amended): for a trade between two distinct existing accounts,
`apply_trade` performs the four sign-determined updates — taker balance ∓
notional, taker position ± qty, maker balance ± notional, maker position ∓ qty —
so position and balance deltas cancel pairwise. -/
theorem apply_trade_conserves (accs : List (Nat × Account)) (maker_id taker_id : Nat)
    (taker_side : Side) (price qty : Int) (am tk : Account)
    (hne : maker_id ≠ taker_id)
    (hm : acc_get accs maker_id = some am) (ht : acc_get accs taker_id = some tk) :
    ∃ am' tk',
      acc_get (apply_trade accs maker_id taker_id taker_side price qty) maker_id =
        some am' ∧
      acc_get (apply_trade accs maker_id taker_id taker_side price qty) taker_id =
        some tk' ∧
      (tk'.position - tk.position) + (am'.position - am.position) = 0 ∧
      (tk'.balance - tk.balance) + (am'.balance - am.balance) = 0 ∧
      (taker_side = Side.Buy →
        tk'.balance = tk.balance - price * qty ∧ tk'.position = tk.position + qty ∧
        am'.balance = am.balance + price * qty ∧ am'.position = am.position - qty) ∧
      (taker_side = Side.Sell →
        tk'.balance = tk.balance + price * qty ∧ tk'.position = tk.position - qty ∧
        am'.balance = am.balance - price * qty ∧ am'.position = am.position + qty) := by
  have hnet : taker_id ≠ maker_id := fun h => hne h.symm
  cases taker_side with
  | Buy =>
    refine ⟨⟨am.balance + price * qty, am.position - qty, am.trade_count + 1,
             am.volume + qty⟩,
            ⟨tk.balance - price * qty, tk.position + qty, tk.trade_count + 1,
             tk.volume + qty⟩, ?_, ?_, by ring, by ring, ?_, ?_⟩
    case refine_3 => intro _; exact ⟨rfl, rfl, rfl, rfl⟩
    case refine_4 => intro h; cases h
    · simp only [apply_trade, hm, ht]
      simp only [if_true]
      rw [acc_get_update_other _ taker_id maker_id _ hne,
        acc_get_update_self,
        acc_get_update_self,
        acc_get_update_self,
        acc_get_update_other _ taker_id maker_id _ hne,
        acc_get_update_other _ taker_id maker_id _ hne,
        hm]
      rfl
    · simp only [apply_trade, hm, ht]
      simp only [if_true]
      rw [acc_get_update_self,
        acc_get_update_other _ maker_id taker_id _ hnet,
        acc_get_update_other _ maker_id taker_id _ hnet,
        acc_get_update_other _ maker_id taker_id _ hnet,
        acc_get_update_self,
        acc_get_update_self,
        ht]
      rfl
  | Sell =>
    refine ⟨⟨am.balance - price * qty, am.position + qty, am.trade_count + 1,
             am.volume + qty⟩,
            ⟨tk.balance + price * qty, tk.position - qty, tk.trade_count + 1,
             tk.volume + qty⟩, ?_, ?_, by ring, by ring, ?_, ?_⟩
    case refine_3 => intro h; cases h
    case refine_4 => intro _; exact ⟨rfl, rfl, rfl, rfl⟩
    · simp only [apply_trade, hm, ht]
      rw [if_neg (show ¬(Side.Sell = Side.Buy) by decide)]
      rw [acc_get_update_other _ taker_id maker_id _ hne,
        acc_get_update_self,
        acc_get_update_self,
        acc_get_update_self,
        acc_get_update_other _ taker_id maker_id _ hne,
        acc_get_update_other _ taker_id maker_id _ hne,
        hm]
      rfl
    · simp only [apply_trade, hm, ht]
      rw [if_neg (show ¬(Side.Sell = Side.Buy) by decide)]
      rw [acc_get_update_self,
        acc_get_update_other _ maker_id taker_id _ hnet,
        acc_get_update_other _ maker_id taker_id _ hnet,
        acc_get_update_other _ maker_id taker_id _ hnet,
        acc_get_update_self,
        acc_get_update_self,
        ht]
      rfl

/-!
### Lemmas about the risk gate and the engine loop
-/

/-- The transcribed `RiskChecker::check` coincides with the spec's ordered
first-failing-check description. -/
theorem risk_check_eq_spec (cfg : RiskConfig) (accs : List (Nat × Account))
    (ev : OrderEvent) : risk_check cfg accs ev = risk_check_spec cfg accs ev := by
  obtain ⟨ty, oid, tid, s, price, qty⟩ := ev
  have e1 : (¬(cfg.min_price ≤ price ∧ price ≤ cfg.max_price)) ↔
      (price < cfg.min_price ∨ cfg.max_price < price) := by omega
  have e2 : (¬(0 < qty ∧ qty ≤ cfg.max_order_qty)) ↔
      (qty ≤ 0 ∨ cfg.max_order_qty < qty) := by omega
  have e3 : (¬(price * qty ≤ cfg.max_order_value)) ↔
      (cfg.max_order_value < price * qty) := not_le
  cases ty <;>
    simp only [risk_check, risk_check_spec, first_failing, decide_eq_true_eq,
      Bool.and_eq_true, Bool.not_eq_true'] <;>
    simp [e1, e2, e3, and_assoc]

/-- `process_event` advances `events_processed_` exactly when the risk check
passes; a rejected event bumps `rejected_count` instead. -/
theorem process_event_counters (cfg : EngineConfig) (s : EngineState)
    (ev : OrderEvent) :
    (process_event cfg s ev).events_processed =
      (if risk_check cfg.risk (ensure_account cfg s.accounts ev) ev = RiskResult.Passed
       then s.events_processed + 1 else s.events_processed) ∧
    (process_event cfg s ev).rejected_count =
      (if risk_check cfg.risk (ensure_account cfg s.accounts ev) ev = RiskResult.Passed
       then s.rejected_count else s.rejected_count + 1) := by
  by_cases h : risk_check cfg.risk (ensure_account cfg s.accounts ev) ev =
      RiskResult.Passed <;>
    simp [process_event, h]

/-- `opposite(Side)` from `types.hpp`. -/
def opposite : Side → Side
  | Side.Buy => Side.Sell
  | Side.Sell => Side.Buy

/-- Membership among the orders linked across a level list. -/
theorem mem_levels_orders {o : Order} {ls : List PriceLevel} :
    o ∈ levels_orders ls ↔ ∃ lvl ∈ ls, o ∈ lvl.orders := by
  simp [levels_orders, List.mem_flatten, List.mem_map]

/-- The result code of `add_limit_internal` is Rejected, FullyFilled,
PartiallyFilled or Accepted. -/
theorem add_limit_internal_result (b : OrderBook) (oid tid : Nat) (side : Side)
    (price qty : Int) :
    (b.add_limit_internal oid tid side price qty).2.1.result = OrderResult.Rejected ∨
    (b.add_limit_internal oid tid side price qty).2.1.result = OrderResult.FullyFilled ∨
    (b.add_limit_internal oid tid side price qty).2.1.result = OrderResult.PartiallyFilled ∨
    (b.add_limit_internal oid tid side price qty).2.1.result = OrderResult.Accepted := by
  by_cases hd : b.has_order oid
  · exact Or.inl (by simp [OrderBook.add_limit_internal, hd])
  · by_cases hr : (b.match_order oid tid side price qty false).2.2 ≤ 0
    · exact Or.inr (Or.inl (by simp [OrderBook.add_limit_internal, hd, hr]))
    · by_cases hc : (b.match_order oid tid side price qty false).1.capacity ≤
          (b.match_order oid tid side price qty false).1.live_count
      · exact Or.inl (by simp [OrderBook.add_limit_internal, hd, hr, hc])
      · by_cases ht : 0 < (b.match_order oid tid side price qty false).2.1.length
        · exact Or.inr (Or.inr (Or.inl
            (by simp [OrderBook.add_limit_internal, hd, hr, hc, ht])))
        · exact Or.inr (Or.inr (Or.inr
            (by simp [OrderBook.add_limit_internal, hd, hr, hc, ht])))

/-!
## The claims
-/

/-- **C1** (corrected). The spec's operation table limits `modify`'s result to
Modified / PartiallyFilled / FullyFilled / NotFound, but the cancel + re-add
paths forward `add_limit_internal`'s result, which can also be `Accepted`
(re-added remainder rests without matching) or `Rejected` (pool exhausted, or
duplicate id in an ill-formed book).  Amended claim: every `modify` response
carries one of Modified, PartiallyFilled, FullyFilled, NotFound, Accepted or
Rejected — equivalently, `modify` never returns `Cancelled`. -/
theorem modify_result_codes (b : OrderBook) (oid : Nat) (nq np : Int) :
    (b.modify oid nq np).2.1.result = OrderResult.Modified ∨
    (b.modify oid nq np).2.1.result = OrderResult.PartiallyFilled ∨
    (b.modify oid nq np).2.1.result = OrderResult.FullyFilled ∨
    (b.modify oid nq np).2.1.result = OrderResult.NotFound ∨
    (b.modify oid nq np).2.1.result = OrderResult.Accepted ∨
    (b.modify oid nq np).2.1.result = OrderResult.Rejected := by
  cases hf : b.find_order oid with
  | none =>
    exact Or.inr (Or.inr (Or.inr (Or.inl (by simp [OrderBook.modify, hf]))))
  | some o =>
    by_cases hp : np ≠ 0 ∧ np ≠ o.price
    · have he : (b.modify oid nq np).2.1.result =
          ((b.remove_order o).add_limit_internal oid o.trader_id o.side np nq).2.1.result := by
        simp [OrderBook.modify, hf, hp]
      rw [he]
      rcases add_limit_internal_result (b.remove_order o) oid o.trader_id o.side np nq with
        h | h | h | h
      · exact Or.inr (Or.inr (Or.inr (Or.inr (Or.inr h))))
      · exact Or.inr (Or.inr (Or.inl h))
      · exact Or.inr (Or.inl h)
      · exact Or.inr (Or.inr (Or.inr (Or.inr (Or.inl h))))
    · by_cases hq : nq < o.qty_remaining
      · exact Or.inl (by simp [OrderBook.modify, hf, hp, hq])
      · have he : (b.modify oid nq np).2.1.result =
            ((b.remove_order o).add_limit_internal oid o.trader_id o.side o.price nq).2.1.result := by
          simp [OrderBook.modify, hf, hp, hq]
        rw [he]
        rcases add_limit_internal_result (b.remove_order o) oid o.trader_id o.side
            o.price nq with h | h | h | h
        · exact Or.inr (Or.inr (Or.inr (Or.inr (Or.inr h))))
        · exact Or.inr (Or.inr (Or.inl h))
        · exact Or.inr (Or.inl h)
        · exact Or.inr (Or.inr (Or.inr (Or.inr (Or.inl h))))

/-- **C1** counterexample: on a book holding only the resting buy order 1, the
size-increase `modify(1, 20, 0)` re-adds the order against an empty opposite
side and returns `Accepted`, which is outside the claimed result set. -/
theorem modify_result_codes_counterexample :
    (((empty_book 8).add_limit 1 0 Side.Buy 100 10).1.modify 1 20 0).2.1.result =
      OrderResult.Accepted ∧
    OrderResult.Accepted ≠ OrderResult.Modified ∧
    OrderResult.Accepted ≠ OrderResult.PartiallyFilled ∧
    OrderResult.Accepted ≠ OrderResult.FullyFilled ∧
    OrderResult.Accepted ≠ OrderResult.NotFound := by
  decide

/-- **C2** (corrected). `process_event` increments `events_processed_` exactly
when the event passes the risk check: a risk-rejected event returns before the
counter update and bumps `rejected_count` instead.  So after the stopped engine
drains the queue, `events_processed` equals the number of dequeued events that
passed risk, not the number of events dequeued. -/
theorem process_event_events_processed (cfg : EngineConfig) (s : EngineState)
    (ev : OrderEvent) :
    (process_event cfg s ev).events_processed =
      (if risk_check cfg.risk (ensure_account cfg s.accounts ev) ev = RiskResult.Passed
       then s.events_processed + 1 else s.events_processed) ∧
    (process_event cfg s ev).rejected_count =
      (if risk_check cfg.risk (ensure_account cfg s.accounts ev) ev = RiskResult.Passed
       then s.rejected_count else s.rejected_count + 1) :=
  process_event_counters cfg s ev

/-- **C2** counterexample: a zero-quantity limit event fails risk
(`InvalidQty`), and the freshly started engine's `events_processed` stays 0
after processing it — the claim demands 1. -/
theorem process_event_events_processed_counterexample :
    (process_event {} (init_state 8)
      { type := OrderType.NewLimit, order_id := 1, trader_id := 0,
        side := Side.Buy, price := 100, qty := 0 }).events_processed = 0 ∧
    (process_event {} (init_state 8)
      { type := OrderType.NewLimit, order_id := 1, trader_id := 0,
        side := Side.Buy, price := 100, qty := 0 }).rejected_count = 1 ∧
    (0 : Nat) ≠ 0 + 1 := by
  decide

/-- **C3** (amended). Provided every `modify` in the operation sequence carries
a positive new quantity — which the risk gate guarantees for events reaching
the book, since it rejects `qty ≤ 0` — every order linked in the reachable book
satisfies `0 < qty_remaining ≤ qty_original`; in particular no linked order has
`qty_remaining = 0`. -/
theorem reachable_qty_invariant (cap : Nat) (ops : List BookOp)
    (hpos : ∀ op ∈ ops, modify_qty_positive op) :
    ∀ o ∈ (run_ops cap ops).all_orders,
      0 < o.qty_remaining ∧ o.qty_remaining ≤ o.qty_original :=
  (run_ops_inv cap ops hpos).2

/-- **C3** witness: the amended invariant evaluated on a concrete run with a
positive modify. -/
theorem reachable_qty_invariant_witness :
    (∀ op ∈ [BookOp.addLimit 1 0 Side.Buy 100 10, BookOp.modify 1 5 0],
      modify_qty_positive op) ∧
    ∀ o ∈ (run_ops 8 [BookOp.addLimit 1 0 Side.Buy 100 10,
        BookOp.modify 1 5 0]).all_orders,
      0 < o.qty_remaining ∧ o.qty_remaining ≤ o.qty_original := by
  constructor
  · intro op hop
    rcases List.mem_cons.mp hop with h | h
    · rw [h]; exact trivial
    · rcases List.mem_cons.mp h with h' | h'
      · rw [h']
        show (0 : Int) < 5
        decide
      · cases h'
  · exact reachable_qty_invariant 8 _ (by
      intro op hop
      rcases List.mem_cons.mp hop with h | h
      · rw [h]; exact trivial
      · rcases List.mem_cons.mp h with h' | h'
        · rw [h']
          show (0 : Int) < 5
          decide
        · cases h')

/-- **C3** counterexample: the book operation `modify(1, new_qty = 0,
new_price = 0)` on a book holding the resting order 1 rewrites its remainder to
0 in place and returns Modified, leaving an order linked at a price level with
`qty_remaining = 0`. -/
theorem reachable_qty_invariant_counterexample :
    ∃ o ∈ (run_ops 8 [BookOp.addLimit 1 0 Side.Buy 100 10,
        BookOp.modify 1 0 0]).all_orders, o.qty_remaining = 0 := by
  decide

/-- **C4** (confirmed). When `add_limit` matches and the remainder is positive
but the pool has no free slot for resting it, the response is Rejected with the
fill information intact, the returned book is exactly the post-match book (the
maker reductions and removals stand), the emitted trades are returned, and the
book's `total_trades_` counter keeps the new trades — nothing is rolled back. -/
theorem add_limit_pool_exhaustion (b : OrderBook) (oid tid : Nat) (s : Side)
    (price qty : Int)
    (hdup : b.has_order oid = false)
    (hrem : 0 < (b.match_order oid tid s price qty false).2.2)
    (hcap : (b.match_order oid tid s price qty false).1.capacity ≤
      (b.match_order oid tid s price qty false).1.live_count) :
    b.add_limit oid tid s price qty =
      ((b.match_order oid tid s price qty false).1,
       { result := OrderResult.Rejected, order_id := oid,
         qty_filled := qty - (b.match_order oid tid s price qty false).2.2,
         qty_remaining := (b.match_order oid tid s price qty false).2.2,
         trade_count := (b.match_order oid tid s price qty false).2.1.length },
       (b.match_order oid tid s price qty false).2.1) ∧
    (b.add_limit oid tid s price qty).1.total_trades =
      b.total_trades + (b.match_order oid tid s price qty false).2.1.length := by
  have hd : ¬(b.has_order oid = true) := by simp [hdup]
  have hr : ¬((b.match_order oid tid s price qty false).2.2 ≤ 0) := by omega
  have h1 : b.add_limit oid tid s price qty =
      ((b.match_order oid tid s price qty false).1,
       { result := OrderResult.Rejected, order_id := oid,
         qty_filled := qty - (b.match_order oid tid s price qty false).2.2,
         qty_remaining := (b.match_order oid tid s price qty false).2.2,
         trade_count := (b.match_order oid tid s price qty false).2.1.length },
       (b.match_order oid tid s price qty false).2.1) := by
    simp [OrderBook.add_limit, OrderBook.add_limit_internal, hd, hr, hcap]
  refine ⟨h1, ?_⟩
  rw [h1]
  by_cases hs : s = Side.Buy <;> simp [OrderBook.match_order, hs]

/-- A one-slot-short book for exercising the pool-exhaustion branch: pool
capacity 0 with one (ill-gotten) resting ask, so the crossing taker trades and
its remainder finds no free slot. -/
def exhausted_book : OrderBook :=
  { bids := [],
    asks := [⟨100, [⟨1, 0, Side.Sell, 100, 10, 10⟩]⟩],
    capacity := 0, total_trades := 0, total_volume := 0 }

/-- **C4** witness: the hypotheses and conclusion evaluated on
`exhausted_book` with an incoming Buy 15 @ 100 (one trade of 10 commits, the
remainder 5 is rejected). -/
theorem add_limit_pool_exhaustion_witness :
    exhausted_book.has_order 2 = false ∧
    0 < (exhausted_book.match_order 2 1 Side.Buy 100 15 false).2.2 ∧
    (exhausted_book.match_order 2 1 Side.Buy 100 15 false).1.capacity ≤
      (exhausted_book.match_order 2 1 Side.Buy 100 15 false).1.live_count ∧
    (exhausted_book.add_limit 2 1 Side.Buy 100 15 =
      ((exhausted_book.match_order 2 1 Side.Buy 100 15 false).1,
       { result := OrderResult.Rejected, order_id := 2,
         qty_filled := 15 - (exhausted_book.match_order 2 1 Side.Buy 100 15 false).2.2,
         qty_remaining := (exhausted_book.match_order 2 1 Side.Buy 100 15 false).2.2,
         trade_count := (exhausted_book.match_order 2 1 Side.Buy 100 15 false).2.1.length },
       (exhausted_book.match_order 2 1 Side.Buy 100 15 false).2.1) ∧
     (exhausted_book.add_limit 2 1 Side.Buy 100 15).1.total_trades =
       exhausted_book.total_trades +
         (exhausted_book.match_order 2 1 Side.Buy 100 15 false).2.1.length) :=
  ⟨by decide, by decide, by decide,
   add_limit_pool_exhaustion exhausted_book 2 1 Side.Buy 100 15
     (by decide) (by decide) (by decide)⟩

/-- **C6** (confirmed). In every book reachable by any sequence of public
operations, the bid level array is strictly decreasing in price, the ask level
array is strictly increasing, and no stored level is empty. -/
theorem reachable_book_sorted (cap : Nat) (ops : List BookOp) :
    ((run_ops cap ops).bids.map PriceLevel.price).Pairwise (· > ·) ∧
    ((run_ops cap ops).asks.map PriceLevel.price).Pairwise (· < ·) ∧
    ∀ lvl ∈ (run_ops cap ops).bids ++ (run_ops cap ops).asks, lvl.orders ≠ [] := by
  obtain ⟨hb, ha, hnb, hna⟩ := run_ops_sorted cap ops
  refine ⟨?_, ?_, ?_⟩
  · exact List.Pairwise.imp (fun h => by simpa [side_rel] using h) hb
  · exact List.Pairwise.imp (fun h => by simpa [side_rel] using h) ha
  · intro lvl hl
    rcases List.mem_append.mp hl with h | h
    · exact hnb lvl h
    · exact hna lvl h

/-- **C6** witness: the invariant evaluated on a concrete mixed run. -/
theorem reachable_book_sorted_witness :
    ((run_ops 8 [BookOp.addLimit 1 0 Side.Buy 100 10,
        BookOp.addLimit 2 0 Side.Sell 105 5,
        BookOp.addLimit 3 0 Side.Buy 99 4,
        BookOp.addMarket 4 1 Side.Buy 2,
        BookOp.cancel 3]).bids.map PriceLevel.price).Pairwise (· > ·) ∧
    ((run_ops 8 [BookOp.addLimit 1 0 Side.Buy 100 10,
        BookOp.addLimit 2 0 Side.Sell 105 5,
        BookOp.addLimit 3 0 Side.Buy 99 4,
        BookOp.addMarket 4 1 Side.Buy 2,
        BookOp.cancel 3]).asks.map PriceLevel.price).Pairwise (· < ·) ∧
    ∀ lvl ∈ (run_ops 8 [BookOp.addLimit 1 0 Side.Buy 100 10,
        BookOp.addLimit 2 0 Side.Sell 105 5,
        BookOp.addLimit 3 0 Side.Buy 99 4,
        BookOp.addMarket 4 1 Side.Buy 2,
        BookOp.cancel 3]).bids ++ (run_ops 8 [BookOp.addLimit 1 0 Side.Buy 100 10,
        BookOp.addLimit 2 0 Side.Sell 105 5,
        BookOp.addLimit 3 0 Side.Buy 99 4,
        BookOp.addMarket 4 1 Side.Buy 2,
        BookOp.cancel 3]).asks, lvl.orders ≠ [] :=
  reachable_book_sorted 8 [BookOp.addLimit 1 0 Side.Buy 100 10,
    BookOp.addLimit 2 0 Side.Sell 105 5,
    BookOp.addLimit 3 0 Side.Buy 99 4,
    BookOp.addMarket 4 1 Side.Buy 2,
    BookOp.cancel 3]

/-- **C10** (corrected). `add_market` returns FullyFilled exactly when the
post-match remainder is ≤ 0 and PartiallyFilled otherwise, never Accepted or
Rejected, and never rests an order (every id linked afterwards was linked
before).  Amended: the empty-opposite-side consequence — PartiallyFilled with
`qty_filled = 0` and `trade_count = 0` — holds for positive quantities; a
market order with `qty ≤ 0` has remainder `qty ≤ 0` and returns FullyFilled
even against an empty book. -/
theorem add_market_results (b : OrderBook) (oid tid : Nat) (s : Side) (qty : Int) :
    ((b.add_market oid tid s qty).2.1.result = OrderResult.FullyFilled ∨
     (b.add_market oid tid s qty).2.1.result = OrderResult.PartiallyFilled) ∧
    ((b.add_market oid tid s qty).2.1.result = OrderResult.FullyFilled ↔
      (b.add_market oid tid s qty).2.1.qty_remaining ≤ 0) ∧
    (∀ o ∈ (b.add_market oid tid s qty).1.all_orders, ∃ o' ∈ b.all_orders,
      o.order_id = o'.order_id) ∧
    ((if s = Side.Buy then b.asks else b.bids) = [] → 0 < qty →
      (b.add_market oid tid s qty).2.1.result = OrderResult.PartiallyFilled ∧
      (b.add_market oid tid s qty).2.1.qty_filled = 0 ∧
      (b.add_market oid tid s qty).2.1.trade_count = 0) := by
  refine ⟨?_, ?_, ?_, ?_⟩
  · by_cases hr : (b.match_order oid tid s 0 qty true).2.2 ≤ 0
    · exact Or.inl (by simp [OrderBook.add_market, hr])
    · exact Or.inr (by simp [OrderBook.add_market, hr])
  · by_cases hr : (b.match_order oid tid s 0 qty true).2.2 ≤ 0 <;>
      simp [OrderBook.add_market, hr]
  · intro o ho
    have hsub := match_order_ids_sublist b oid tid s 0 qty true
    have h1 : o.order_id ∈
        (b.match_order oid tid s 0 qty true).1.all_orders.map Order.order_id :=
      List.mem_map_of_mem _ ho
    obtain ⟨o', ho', he⟩ := List.mem_map.mp (hsub.mem h1)
    exact ⟨o', ho', he.symm⟩
  · intro hopp hq
    have hml : match_levels oid tid s 0 true
        (if s = Side.Buy then b.asks else b.bids) qty = ([], [], qty) := by
      rw [hopp]
      simp [match_levels]
    have hmo : (b.match_order oid tid s 0 qty true).2.2 = qty ∧
        (b.match_order oid tid s 0 qty true).2.1 = [] := by
      by_cases hs : s = Side.Buy
      · rw [hs] at hml ⊢
        simp only [OrderBook.match_order, if_pos rfl] at *
        rw [hml]
        exact ⟨rfl, rfl⟩
      · simp only [OrderBook.match_order, if_neg hs] at *
        rw [hml]
        exact ⟨rfl, rfl⟩
    have hr : ¬((b.match_order oid tid s 0 qty true).2.2 ≤ 0) := by
      rw [hmo.1]; omega
    refine ⟨by simp [OrderBook.add_market, hr], ?_, ?_⟩
    · show qty - (b.match_order oid tid s 0 qty true).2.2 = 0
      rw [hmo.1]; ring
    · show (b.match_order oid tid s 0 qty true).2.1.length = 0
      rw [hmo.2]; rfl

/-- **C10** witness: a positive-quantity market order against an empty book. -/
theorem add_market_results_witness :
    (((empty_book 8).add_market 1 0 Side.Buy 3).2.1.result = OrderResult.FullyFilled ∨
     ((empty_book 8).add_market 1 0 Side.Buy 3).2.1.result = OrderResult.PartiallyFilled) ∧
    (((empty_book 8).add_market 1 0 Side.Buy 3).2.1.result = OrderResult.FullyFilled ↔
      ((empty_book 8).add_market 1 0 Side.Buy 3).2.1.qty_remaining ≤ 0) ∧
    (∀ o ∈ ((empty_book 8).add_market 1 0 Side.Buy 3).1.all_orders,
      ∃ o' ∈ (empty_book 8).all_orders, o.order_id = o'.order_id) ∧
    ((if Side.Buy = Side.Buy then (empty_book 8).asks else (empty_book 8).bids) = [] →
      (0 : Int) < 3 →
      ((empty_book 8).add_market 1 0 Side.Buy 3).2.1.result = OrderResult.PartiallyFilled ∧
      ((empty_book 8).add_market 1 0 Side.Buy 3).2.1.qty_filled = 0 ∧
      ((empty_book 8).add_market 1 0 Side.Buy 3).2.1.trade_count = 0) :=
  add_market_results (empty_book 8) 1 0 Side.Buy 3

/-- **C10** counterexample: a zero-quantity market order against an empty book
returns FullyFilled, where the claim's empty-opposite-side clause demands
PartiallyFilled. -/
theorem add_market_results_counterexample :
    ((empty_book 8).asks = []) ∧
    ((empty_book 8).add_market 1 0 Side.Buy 0).2.1.result = OrderResult.FullyFilled ∧
    OrderResult.FullyFilled ≠ OrderResult.PartiallyFilled := by
  decide

/-- With the remainder exhausted the level loop stops at once. -/
theorem match_levels_zero (toid ttid : Nat) (s : Side) (price : Int) (im : Bool)
    (ls : List PriceLevel) (r : Int) (hr : r ≤ 0) :
    match_levels toid ttid s price im ls r = ([], ls, r) := by
  cases ls with
  | nil => simp [match_levels]
  | cons lvl rest => simp [match_levels, show ¬(0 < r) by omega]

/-- **C5** (confirmed). With two makers A then B resting at the best opposite
level at the same price (A arrived earlier, so A is at the FIFO head), an
incoming crossing limit order of exactly A's remaining size fills A completely
— one trade naming A as maker at A's resting price — removes A, leaves B at the
head of the level with its quantity untouched, leaves the taker's own side
unchanged, and reports FullyFilled.  This is the price-time-priority step: the
match takes the head of the best opposite level. -/
theorem price_time_priority (b : OrderBook) (oid tid : Nat) (s : Side)
    (price p : Int) (A B : Order) (restL : List Order) (more : List PriceLevel)
    (hopp : (if s = Side.Buy then b.asks else b.bids) =
      PriceLevel.mk p (A :: B :: restL) :: more)
    (hdup : b.has_order oid = false)
    (hqA : 0 < A.qty_remaining)
    (hcross : if s = Side.Buy then p ≤ price else price ≤ p) :
    (b.add_limit oid tid s price A.qty_remaining).2.2 =
      [⟨A.order_id, oid, A.trader_id, tid, A.price, A.qty_remaining, s⟩] ∧
    (if s = Side.Buy then (b.add_limit oid tid s price A.qty_remaining).1.asks
      else (b.add_limit oid tid s price A.qty_remaining).1.bids) =
      PriceLevel.mk p (B :: restL) :: more ∧
    (if s = Side.Buy then (b.add_limit oid tid s price A.qty_remaining).1.bids
      else (b.add_limit oid tid s price A.qty_remaining).1.asks) =
      (if s = Side.Buy then b.bids else b.asks) ∧
    (b.add_limit oid tid s price A.qty_remaining).2.1.result =
      OrderResult.FullyFilled := by
  have h1 : match_level oid tid s (A :: B :: restL) A.qty_remaining =
      ([⟨A.order_id, oid, A.trader_id, tid, A.price, A.qty_remaining, s⟩],
       B :: restL, 0) := by
    simp [match_level, hqA]
  have hbrk : ¬((s = Side.Buy ∧ price < p) ∨ (s = Side.Sell ∧ p < price)) := by
    cases s with
    | Buy =>
      have hcross' : p ≤ price := by simpa using hcross
      simp
      omega
    | Sell =>
      have hcross' : price ≤ p := by simpa using hcross
      simp
      omega
  have hz := match_levels_zero oid tid s price false more 0 (le_refl 0)
  have h2 : match_levels oid tid s price false
      (PriceLevel.mk p (A :: B :: restL) :: more) A.qty_remaining =
      ([⟨A.order_id, oid, A.trader_id, tid, A.price, A.qty_remaining, s⟩],
       PriceLevel.mk p (B :: restL) :: more, 0) := by
    simp [match_levels, hqA, hbrk, h1, hz]
  have hd : ¬(b.has_order oid = true) := by simp [hdup]
  cases s with
  | Buy =>
    have hopp' : b.asks = PriceLevel.mk p (A :: B :: restL) :: more := by
      simpa using hopp
    have h3 : b.match_order oid tid Side.Buy price A.qty_remaining false =
        (OrderBook.mk b.bids (PriceLevel.mk p (B :: restL) :: more) b.capacity
          (b.total_trades + 1) (b.total_volume + A.qty_remaining),
         [⟨A.order_id, oid, A.trader_id, tid, A.price, A.qty_remaining, Side.Buy⟩],
         0) := by
      simp [OrderBook.match_order, hopp', h2, trades_volume]
    simp [OrderBook.add_limit, OrderBook.add_limit_internal, hd, h3]
  | Sell =>
    have hopp' : b.bids = PriceLevel.mk p (A :: B :: restL) :: more := by
      simpa using hopp
    have h3 : b.match_order oid tid Side.Sell price A.qty_remaining false =
        (OrderBook.mk (PriceLevel.mk p (B :: restL) :: more) b.asks b.capacity
          (b.total_trades + 1) (b.total_volume + A.qty_remaining),
         [⟨A.order_id, oid, A.trader_id, tid, A.price, A.qty_remaining, Side.Sell⟩],
         0) := by
      simp [OrderBook.match_order, hopp', h2, trades_volume]
    simp [OrderBook.add_limit, OrderBook.add_limit_internal, hd, h3]

/-- A book with two same-priced resting asks (A = order 1 ahead of B =
order 2) for instantiating the priority and trade-field theorems. -/
def two_maker_book : OrderBook :=
  { bids := [],
    asks := [⟨100, [⟨1, 0, Side.Sell, 100, 10, 10⟩, ⟨2, 0, Side.Sell, 100, 7, 7⟩]⟩],
    capacity := 8, total_trades := 0, total_volume := 0 }

/-- **C5** witness: a Buy 10 @ 100 against `two_maker_book` fills exactly maker
1 and leaves maker 2 untouched at the head. -/
theorem price_time_priority_witness :
    (two_maker_book.add_limit 3 1 Side.Buy 100 10).2.2 =
      [⟨1, 3, 0, 1, 100, 10, Side.Buy⟩] ∧
    (if Side.Buy = Side.Buy then (two_maker_book.add_limit 3 1 Side.Buy 100 10).1.asks
      else (two_maker_book.add_limit 3 1 Side.Buy 100 10).1.bids) =
      PriceLevel.mk 100 [⟨2, 0, Side.Sell, 100, 7, 7⟩] :: [] ∧
    (if Side.Buy = Side.Buy then (two_maker_book.add_limit 3 1 Side.Buy 100 10).1.bids
      else (two_maker_book.add_limit 3 1 Side.Buy 100 10).1.asks) =
      (if Side.Buy = Side.Buy then two_maker_book.bids else two_maker_book.asks) ∧
    (two_maker_book.add_limit 3 1 Side.Buy 100 10).2.1.result =
      OrderResult.FullyFilled :=
  price_time_priority two_maker_book 3 1 Side.Buy 100 100
    ⟨1, 0, Side.Sell, 100, 10, 10⟩ ⟨2, 0, Side.Sell, 100, 7, 7⟩ [] []
    (by decide) (by decide) (by decide) (by decide)

/-- **C7** (confirmed). Every trade emitted by the matching loop — reached by
both `add_limit` (`is_market = false`) and `add_market` (`is_market = true`) —
carries the incoming order's side as `taker_side` and the resting maker's id,
trader and resting price (never the taker's limit price); when the opposite
side's orders carry the opposite side marker, the maker's side is the opposite
of the taker's. -/
theorem trade_fields (b : OrderBook) (oid tid : Nat) (s : Side)
    (price qty : Int) (im : Bool)
    (hsides : ∀ lvl ∈ (if s = Side.Buy then b.asks else b.bids),
      ∀ o ∈ lvl.orders, o.side = opposite s) :
    ∀ t ∈ (b.match_order oid tid s price qty im).2.1,
      t.taker_side = s ∧ t.taker_order_id = oid ∧
      ∃ o, (∃ lvl ∈ (if s = Side.Buy then b.asks else b.bids), o ∈ lvl.orders) ∧
        t.maker_order_id = o.order_id ∧ t.maker_trader_id = o.trader_id ∧
        t.price = o.price ∧ o.side = opposite s := by
  intro t ht
  have ht' : t ∈ (match_levels oid tid s price im
      (if s = Side.Buy then b.asks else b.bids) qty).1 := ht
  obtain ⟨o, ho, hp⟩ := match_levels_trades_src oid tid s price im _ qty t ht'
  obtain ⟨lvl, hlvl, holvl⟩ := mem_levels_orders.mp ho
  exact ⟨hp.2.2.2.1, hp.2.2.2.2.1, o, ⟨lvl, hlvl, holvl⟩, hp.1, hp.2.1, hp.2.2.1,
    hsides lvl hlvl o holvl⟩

/-- **C7** witness: the single trade of a Buy 10 @ 105 against
`two_maker_book` (maker resting at 100): the trade price is the maker's 100,
not the taker's limit 105, and `taker_side` is Buy. -/
theorem trade_fields_witness :
    (∀ lvl ∈ (if Side.Buy = Side.Buy then two_maker_book.asks else two_maker_book.bids),
      ∀ o ∈ lvl.orders, o.side = opposite Side.Buy) ∧
    (⟨1, 3, 0, 1, 100, 10, Side.Buy⟩ : Trade) ∈
      (two_maker_book.match_order 3 1 Side.Buy 105 10 false).2.1 ∧
    ((⟨1, 3, 0, 1, 100, 10, Side.Buy⟩ : Trade).taker_side = Side.Buy ∧
     (⟨1, 3, 0, 1, 100, 10, Side.Buy⟩ : Trade).taker_order_id = 3 ∧
     ∃ o, (∃ lvl ∈ (if Side.Buy = Side.Buy then two_maker_book.asks
         else two_maker_book.bids), o ∈ lvl.orders) ∧
       (⟨1, 3, 0, 1, 100, 10, Side.Buy⟩ : Trade).maker_order_id = o.order_id ∧
       (⟨1, 3, 0, 1, 100, 10, Side.Buy⟩ : Trade).maker_trader_id = o.trader_id ∧
       (⟨1, 3, 0, 1, 100, 10, Side.Buy⟩ : Trade).price = o.price ∧
       o.side = opposite Side.Buy) :=
  ⟨by decide, by decide,
   trade_fields two_maker_book 3 1 Side.Buy 105 10 false (by decide)
     ⟨1, 3, 0, 1, 100, 10, Side.Buy⟩ (by decide)⟩

/-- **C9** (corrected). `RiskChecker::check` equals the spec's ordered
first-failing-check description: Passed for Cancel; otherwise price window
(skipped for market orders), then quantity, then notional, then (balance check
enabled and Buy) sufficient balance.  A price exactly at `min_price` or
`max_price` passes the price check.  Amended: a zero-quantity event yields
`InvalidQty` when it survives the price check (market order, or price within
the limits) — a zero-quantity limit/modify event with an out-of-range price
yields `InvalidPrice`, the earlier check's variant. -/
theorem risk_check_first_failing (cfg : RiskConfig)
    (accs : List (Nat × Account)) (ev : OrderEvent) :
    risk_check cfg accs ev = risk_check_spec cfg accs ev ∧
    (ev.type = OrderType.Cancel → risk_check cfg accs ev = RiskResult.Passed) ∧
    (ev.type ≠ OrderType.Cancel → ev.qty = 0 →
      (ev.type = OrderType.NewMarket ∨
        (cfg.min_price ≤ ev.price ∧ ev.price ≤ cfg.max_price)) →
      risk_check cfg accs ev = RiskResult.InvalidQty) ∧
    ((ev.price = cfg.min_price ∨ ev.price = cfg.max_price) →
      cfg.min_price ≤ cfg.max_price →
      risk_check cfg accs ev ≠ RiskResult.InvalidPrice) := by
  refine ⟨risk_check_eq_spec cfg accs ev, ?_, ?_, ?_⟩
  · intro h
    simp [risk_check, h]
  · intro hnc hq hpr
    have hprice : ¬((ev.type = OrderType.NewLimit ∨ ev.type = OrderType.Modify) ∧
        (ev.price < cfg.min_price ∨ cfg.max_price < ev.price)) := by
      rintro ⟨h1, h2⟩
      rcases hpr with h | h
      · rcases h1 with h1 | h1 <;> rw [h] at h1 <;> cases h1
      · omega
    simp [risk_check, hnc, hprice, hq]
  · intro hb hmm
    have hprice : ¬((ev.type = OrderType.NewLimit ∨ ev.type = OrderType.Modify) ∧
        (ev.price < cfg.min_price ∨ cfg.max_price < ev.price)) := by
      rintro ⟨-, h2⟩
      rcases hb with h | h <;> omega
    simp only [risk_check]
    split_ifs with h₁ h₂ h₃ h₄ <;> simp_all

/-- **C9** witness: the equality, the Cancel clause, the in-range zero-quantity
clause and the boundary-price clause at the default configuration. -/
theorem risk_check_first_failing_witness :
    risk_check {} [(0, ⟨1000000000, 0, 0, 0⟩)]
      ⟨OrderType.NewLimit, 1, 0, Side.Buy, 1, 0⟩ = RiskResult.InvalidQty ∧
    risk_check {} [] ⟨OrderType.Cancel, 1, 0, Side.Buy, 0, 0⟩ = RiskResult.Passed ∧
    risk_check {} [(0, ⟨1000000000, 0, 0, 0⟩)]
      ⟨OrderType.NewLimit, 1, 0, Side.Buy, 1, 5⟩ ≠ RiskResult.InvalidPrice :=
  ⟨(risk_check_first_failing {} [(0, ⟨1000000000, 0, 0, 0⟩)]
      ⟨OrderType.NewLimit, 1, 0, Side.Buy, 1, 0⟩).2.2.1 (by decide) (by decide)
      (by decide),
   (risk_check_first_failing {} [] ⟨OrderType.Cancel, 1, 0, Side.Buy, 0, 0⟩).2.1
      (by decide),
   (risk_check_first_failing {} [(0, ⟨1000000000, 0, 0, 0⟩)]
      ⟨OrderType.NewLimit, 1, 0, Side.Buy, 1, 5⟩).2.2.2 (by decide) (by decide)⟩

/-- **C9** counterexample: a zero-quantity NewLimit event whose price 0 is
below `min_price = 1` yields `InvalidPrice`, not the `InvalidQty` the claim's
zero-quantity clause asserts. -/
theorem risk_check_counterexample :
    risk_check {} [] ⟨OrderType.NewLimit, 1, 0, Side.Buy, 0, 0⟩ =
      RiskResult.InvalidPrice ∧
    RiskResult.InvalidPrice ≠ RiskResult.InvalidQty := by
  decide

/-- **C8** witness: a Buy trade of 10 @ 100 between the distinct accounts 0
(maker) and 1 (taker). -/
theorem apply_trade_conserves_witness :
    (0 : Nat) ≠ 1 ∧
    acc_get [(0, ⟨1000, 0, 0, 0⟩), (1, ⟨2000, 0, 0, 0⟩)] 0 = some ⟨1000, 0, 0, 0⟩ ∧
    acc_get [(0, ⟨1000, 0, 0, 0⟩), (1, ⟨2000, 0, 0, 0⟩)] 1 = some ⟨2000, 0, 0, 0⟩ ∧
    ∃ am' tk',
      acc_get (apply_trade [(0, ⟨1000, 0, 0, 0⟩), (1, ⟨2000, 0, 0, 0⟩)]
        0 1 Side.Buy 100 10) 0 = some am' ∧
      acc_get (apply_trade [(0, ⟨1000, 0, 0, 0⟩), (1, ⟨2000, 0, 0, 0⟩)]
        0 1 Side.Buy 100 10) 1 = some tk' ∧
      (tk'.position - (⟨2000, 0, 0, 0⟩ : Account).position) +
        (am'.position - (⟨1000, 0, 0, 0⟩ : Account).position) = 0 ∧
      (tk'.balance - (⟨2000, 0, 0, 0⟩ : Account).balance) +
        (am'.balance - (⟨1000, 0, 0, 0⟩ : Account).balance) = 0 ∧
      (Side.Buy = Side.Buy →
        tk'.balance = (⟨2000, 0, 0, 0⟩ : Account).balance - 100 * 10 ∧
        tk'.position = (⟨2000, 0, 0, 0⟩ : Account).position + 10 ∧
        am'.balance = (⟨1000, 0, 0, 0⟩ : Account).balance + 100 * 10 ∧
        am'.position = (⟨1000, 0, 0, 0⟩ : Account).position - 10) ∧
      (Side.Buy = Side.Sell →
        tk'.balance = (⟨2000, 0, 0, 0⟩ : Account).balance + 100 * 10 ∧
        tk'.position = (⟨2000, 0, 0, 0⟩ : Account).position - 10 ∧
        am'.balance = (⟨1000, 0, 0, 0⟩ : Account).balance - 100 * 10 ∧
        am'.position = (⟨1000, 0, 0, 0⟩ : Account).position + 10) :=
  ⟨by decide, by decide, by decide,
   apply_trade_conserves [(0, ⟨1000, 0, 0, 0⟩), (1, ⟨2000, 0, 0, 0⟩)] 0 1
     Side.Buy 100 10 ⟨1000, 0, 0, 0⟩ ⟨2000, 0, 0, 0⟩ (by decide) (by decide)
     (by decide)⟩

/-- **C8** counterexample: a self-trade (maker account = taker account = 7)
leaves the account's balance unchanged at 1000, while the claim demands the
taker's balance decrease by notional 1000 on a Buy. -/
theorem apply_trade_conserves_counterexample :
    (acc_get (apply_trade [(7, ⟨1000, 0, 0, 0⟩)] 7 7 Side.Buy 100 10) 7).map
      Account.balance = some 1000 ∧
    (1000 : Int) ≠ 1000 - 100 * 10 := by
  decide

end CES
